import Mathlib

/-!
# beep-utils: the synchronized mixer and the buffer cache

A shallow embedding of `streamer.Synchronized` (`streamer/synchronized.go`), of
`buffers.Buffers` (`buffers/buffers.go`) and of the readers
(`reader/reader.go`), together with the pieces of the `github.com/faiface/beep`
library that they call: `beep.Mix`, `beep.Buffer` and the seeker returned by
`beep.Buffer.Streamer` are modelled, `mp3.Decode` and `beep.Resample` are
parameters.

Conventions of the embedding

* A Go method with a pointer receiver becomes a function that takes the
  receiver's state and returns the new state next to the Go results.
* A Go `error` result is an `Option Error`; `none` is Go's `nil`.
* The seekers handed to the mixer are objects of the program: `beep.Objects`
  maps an address to the state of the object there.  The mixer's map holds
  addresses, so one seeker added under two ids is one object with one cursor,
  and every operation that calls a method of a seeker takes the objects and,
  when the method can change the seeker, returns them.  The theorems about one
  call hold for whatever state the objects are in; in a sequence of calls the
  objects are changed by the calls of the sequence only.
* An amplitude (`float64` in Go) is an element of a type `α` with `+` and `0`.
  No law of `+` is assumed unless a theorem says so: a mixed sample is stated
  as the sum `0 + s₁ + s₂ + ...` taken from left to right in the order in which
  the participants are visited.
* `map[string]*beep.StreamSeeker` is an association list; `range` visits the
  entries in list order.  Go leaves the order open, and the theorems hold for
  every order of the list.
* The mutex is not modelled: every operation runs atomically.
-/

/-- Errors built by `fmt.Errorf` in the sources, kept as data. -/
inductive Error where
  /-- Message `cannot seek to position %d. Position out of bounds %d, %d`. -/
  | seekOutOfBounds (p lo hi : Int)
  /-- Message `expected streamer with length %d, got length %d`. -/
  | lengthMismatch (expected got : Int)
  /-- Message `cannot load streamer with id %s: %s`. -/
  | cannotLoadStreamer (id : String) (cause : Error)
  /-- Message `cannot seek streamer %s to position %d`. -/
  | cannotSeekStreamer (id : String) (p : Int)
  /-- Message `buffer: seek position %v out of range [%v, %v]` of the beep library. -/
  | bufferSeekOutOfRange (p lo hi : Int)
  /-- Message `cannot get Stream Seeker from unloaded buffer %s`. -/
  | unloadedBuffer (path : String)
  /-- Message `cannot GetFormat, buffer not initialised`. -/
  | notInitialised
  /-- An error of an external component: another `beep.StreamSeeker`
  implementation, the file system, the decoder or a `Close`. -/
  | other (msg : String)
  deriving DecidableEq, Repr

namespace beep

/-- One stereo sample, Go's `[2]float64`: left and right amplitude. -/
abbrev Sample (α : Type) := α × α

/-- The interface `beep.StreamSeeker`: an object with private state `σ` and the
methods `Stream`, `Len`, `Position` and `Seek`.

`stream st k` is `Stream(samples)` on a slice of length `k`: it returns the
samples written to `samples[:n]` (so `n` is the length of that list), the flag
`ok` and the new state.  `seek st p` is `Seek(p)`: the returned error and the
new state. -/
structure StreamSeeker (α : Type) where
  σ : Type
  state : σ
  stream : σ → Nat → List (Sample α) × Bool × σ
  len : σ → Int
  position : σ → Int
  seek : σ → Int → Option Error × σ

namespace StreamSeeker

variable {α : Type}

/-- Method call `s.Len()`. -/
def Len (s : StreamSeeker α) : Int := s.len s.state

/-- Method call `s.Position()`. -/
def Position (s : StreamSeeker α) : Int := s.position s.state

/-- Method call `s.Seek(p)`: the error and the object afterwards. -/
def Seek (s : StreamSeeker α) (p : Int) : Option Error × StreamSeeker α :=
  ((s.seek s.state p).1, { s with state := (s.seek s.state p).2 })

/-- Method call `s.Stream(samples)` with `len(samples) = k`: the written
samples, `ok`, and the object afterwards. -/
def Stream (s : StreamSeeker α) (k : Nat) : List (Sample α) × Bool × StreamSeeker α :=
  ((s.stream s.state k).1, (s.stream s.state k).2.1, { s with state := (s.stream s.state k).2.2 })

end StreamSeeker

/-- Modelled from the spec: `bufferStreamer` of the external library
`github.com/faiface/beep` (the "Stream Seeker" over a Decoded Buffer returned by
`beep.Buffer.Streamer`), which is not part of this repository.  It is a read
cursor `pos` over the sample sequence `data`; the byte encoding of the buffer is
abstracted to the decoded samples. -/
structure bufferStreamer (α : Type) where
  data : List (Sample α)
  pos : Nat

namespace bufferStreamer

variable {α : Type}

/-- Modelled from the spec: `bufferStreamer.Len` of the beep library, the
total-length query. -/
def Len (bs : bufferStreamer α) : Int := (bs.data.length : Int)

/-- Modelled from the spec: `bufferStreamer.Position` of the beep library, the
position query. -/
def Position (bs : bufferStreamer α) : Int := (bs.pos : Int)

/-- Modelled from the spec: `bufferStreamer.Seek` of the beep library, the
absolute seek: it fails when `p < 0` or `Len() < p` and then leaves the cursor
alone. -/
def Seek (bs : bufferStreamer α) (p : Int) : Option Error × bufferStreamer α :=
  if p < 0 ∨ bs.Len < p then
    (some (Error.bufferSeekOutOfRange p 0 bs.Len), bs)
  else
    (none, { bs with pos := p.toNat })

/-- Modelled from the spec: `bufferStreamer.Stream` of the beep library, the
streaming read that advances its own position: a drained cursor returns
`0, false`; otherwise the next `min k (len - pos)` samples and `true`. -/
def Stream (bs : bufferStreamer α) (k : Nat) : List (Sample α) × Bool × bufferStreamer α :=
  if bs.pos ≥ bs.data.length then
    ([], false, bs)
  else
    ((bs.data.drop bs.pos).take k, true,
      { bs with pos := bs.pos + ((bs.data.drop bs.pos).take k).length })

/-- A `bufferStreamer` seen through the interface `beep.StreamSeeker`. -/
def toStreamSeeker (bs : bufferStreamer α) : StreamSeeker α where
  σ := bufferStreamer α
  state := bs
  stream := Stream
  len := Len
  position := Position
  seek := Seek

end bufferStreamer

/-- Modelled from the spec: `beep.Buffer.Streamer(from, to)` of the beep library: a
fresh seeker at position 0 over `data[from:to]`. -/
def Buffer.Streamer {α : Type} (data : List (Sample α)) (lo hi : Nat) : StreamSeeker α :=
  (bufferStreamer.mk ((data.take hi).drop lo) 0).toStreamSeeker

/-- The statement `samples[i][0] += tmp[i][0]; samples[i][1] += tmp[i][1]` for
`i` over `tmp[:sn]` in `beep.Mix`. -/
def addInto {α : Type} [Add α] : List (Sample α) → List (Sample α) → List (Sample α)
  | s :: ss, t :: ts => (s.1 + t.1, s.2 + t.2) :: addInto ss ts
  | ss, [] => ss
  | [], _ :: _ => []

/-- Size of the scratch array `var tmp [512][2]float64` in `beep.Mix`. -/
def tmpLen : Nat := 512

/-- The seeker objects of the program: the state of the object at each address.
A `beep.StreamSeeker` value held by the caller or by the mixer is the address of
such an object; equal addresses are the same object. -/
abbrev Objects (α : Type) := Nat → StreamSeeker α

/-- The objects after the object at address `a` has changed to `s`. -/
def Objects.set {α : Type} (objs : Objects α) (a : Nat) (s : StreamSeeker α) : Objects α :=
  fun b => if b = a then s else objs b

/-- What one run of a loop of `beep.Mix` leaves behind: the objects (the
streamers among them advanced), the sample slice, the counter and the flag
`ok`. -/
structure MixState (α : Type) where
  objects : Objects α
  samples : List (Sample α)
  n : Nat
  ok : Bool

/-- Modelled from the spec: the loop `for _, st := range s` inside `beep.Mix`
of the beep library: every streamer of the slice `s` (a list of addresses)
streams into `tmp[:toStream]`, `snMax` becomes the largest count, `ok` the
disjunction of the flags, and the streamed samples are added into `samples`.
The field `n` holds `snMax`. -/
def mixPass {α : Type} [Add α] (toStream : Nat) :
    List Nat → Objects α → List (Sample α) → Nat → Bool → MixState α
  | [], objs, samples, snMax, ok => ⟨objs, samples, snMax, ok⟩
  | st :: rest, objs, samples, snMax, ok =>
    let r := (objs st).Stream toStream
    let sn := r.1.length
    mixPass toStream rest (objs.set st r.2.2) (addInto samples r.1)
      (if sn > snMax then sn else snMax) (ok || r.2.1)

/-- Modelled from the spec: the loop `for len(samples) > 0` of `beep.Mix` in
the beep library.  Each round clears `samples[:toStream]`, runs `mixPass`, adds
`snMax` to `n`, stops if `snMax < len(tmp)` and otherwise goes on with
`samples[snMax:]`.  `fuel` bounds the number of rounds; a round that goes on
consumes `snMax ≥ 512` samples, so `len(samples)` rounds are enough. -/
def mixLoop {α : Type} [Add α] [Zero α] :
    Nat → List Nat → Objects α → List (Sample α) → Nat → Bool → MixState α
  | 0, _, objs, samples, n, ok => ⟨objs, samples, n, ok⟩
  | fuel + 1, s, objs, samples, n, ok =>
    if samples.length > 0 then
      let toStream := if tmpLen > samples.length then samples.length else tmpLen
      let cleared := List.replicate toStream ((0 : α), (0 : α)) ++ samples.drop toStream
      let pass := mixPass toStream s objs cleared 0 ok
      let snMax := pass.n
      if snMax < tmpLen then
        ⟨pass.objects, pass.samples, n + snMax, pass.ok⟩
      else
        let next := mixLoop fuel s pass.objects (pass.samples.drop snMax) (n + snMax) pass.ok
        { next with samples := pass.samples.take snMax ++ next.samples }
    else
      ⟨objs, samples, n, ok⟩

/-- Modelled from the spec: `beep.Mix(s...).Stream(samples)` of the beep
library: "streams them mixed together", that is the sample-for-sample sum of
what the streamers produce, `n` the largest count and `ok` true when some
streamer returned true. -/
def Mix {α : Type} [Add α] [Zero α] (objs : Objects α) (s : List Nat)
    (samples : List (Sample α)) : MixState α :=
  mixLoop samples.length s objs samples 0 false

end beep

namespace streamer

open beep

/-- The struct `Synchronized` (without its mutex).  The map `streamers` holds,
for each id, the address of the seeker object stored under it. -/
structure Synchronized where
  streamers : List (String × Nat)
  position : Int
  length : Int
  err : Option Error
  isInitialized : Bool
  deriving DecidableEq

namespace Synchronized

variable {α : Type}

/-- The test `_, exists := m.streamers[id]`. -/
def hasId (m : Synchronized) (id : String) : Bool :=
  m.streamers.any (fun e => e.1 == id)

/-- The map read `m.streamers[id]`: the address of the seeker stored under `id`. -/
def lookup (m : Synchronized) (id : String) : Option Nat :=
  (m.streamers.find? (fun e => e.1 == id)).map Prod.snd

/-- Method `Len`: returns the total number of samples of the Streamer. -/
def Len (m : Synchronized) : Int := m.length

/-- Method `Position`: returns the current position of the Streamer. -/
def Position (m : Synchronized) : Int := m.position

/-- Method `Seek`: sets the position of the Streamer to the provided value; out of
bounds it returns an error and the position remains unchanged. -/
def Seek (m : Synchronized) (p : Int) : Option Error × Synchronized :=
  if p < 0 ∨ p > m.length then
    (some (Error.seekOutOfBounds p 0 m.length), m)
  else
    (none, { m with position := p })

/-- Method `Err`: returns the error stored in the mixer, `nil` if there is none. -/
def Err (m : Synchronized) : Option Error := m.err

/-- Method `validate`: checks that the streamer has the session length. -/
def validate (m : Synchronized) (objs : Objects α) (streamSeeker : Nat) : Option Error :=
  if m.length ≠ (objs streamSeeker).Len then
    some (Error.lengthMismatch m.length (objs streamSeeker).Len)
  else
    none

/-- The inner loop of `getStreamers`, `for id, streamer := range m.streamers`:
every participant is told to seek to `p`; a failure overwrites `m.err` and the
`continue` goes on with the next participant of this inner loop. -/
def seekAll (p : Int) :
    List (String × Nat) → Objects α → Option Error → Objects α × Option Error
  | [], objs, err => (objs, err)
  | (id, a) :: rest, objs, err =>
    let r := (objs a).Seek p
    seekAll p rest (objs.set a r.2)
      (if r.1.isSome then some (Error.cannotSeekStreamer id p) else err)

/-- The outer loop of `getStreamers`, `for _, streamer := range m.streamers`:
one round per participant; each round runs the inner loop over the whole map
and then stores the round's participant in the result slice (`streamers[i] =
*streamer; i++`), whatever its `Seek` returned.  The first argument lists the
rounds still to run. -/
def getStreamersRounds (p : Int) :
    List (String × Nat) → Synchronized → Objects α → Synchronized × Objects α
  | [], m, objs => (m, objs)
  | _ :: rest, m, objs =>
    let r := seekAll p m.streamers objs m.err
    getStreamersRounds p rest { m with err := r.2 } r.1

/-- Method `getStreamers`: gets the streamers at the given position.  The slice it
returns holds every participant of the map, in map order (their addresses);
next to it come the mixer and the objects after the seeks. -/
def getStreamers (m : Synchronized) (objs : Objects α) (p : Int) :
    List Nat × Synchronized × Objects α :=
  let r := getStreamersRounds p m.streamers m objs
  (m.streamers.map Prod.snd, r.1, r.2)

/-- Results of `Stream`: `n`, `ok`, the sample slice afterwards, the mixer
afterwards and the objects afterwards. -/
structure StreamResult (α : Type) where
  n : Int
  ok : Bool
  samples : List (Sample α)
  mixer : Synchronized
  objects : Objects α

/-- Method `Stream`: copies at most `len(samples)` next audio samples to the samples
slice. -/
def Stream [Add α] [Zero α] (m : Synchronized) (objs : Objects α)
    (samples : List (Sample α)) : StreamResult α :=
  if m.position ≥ m.length then
    ⟨0, false, samples, m, objs⟩
  else
    let g := m.getStreamers objs m.position
    let mixed := Mix g.2.2 g.1 samples
    let m1 := g.2.1
    let position := m1.position + (mixed.n : Int)
    let ok := if position = m1.length then false else mixed.ok
    ⟨(mixed.n : Int), ok, mixed.samples, { m1 with position := position }, mixed.objects⟩

/-- Method `Add`: adds a streamer under `id`; nothing happens when `id` is already
in the map.  The first added streamer fixes the length, and a streamer that fails
`validate` is not stored.  `streamSeeker` is the address of the seeker. -/
def Add (m : Synchronized) (objs : Objects α) (streamSeeker : Nat) (id : String) :
    Option Error × Synchronized :=
  if !m.hasId id then
    let m1 : Synchronized :=
      if !m.isInitialized then
        { m with length := (objs streamSeeker).Len, isInitialized := true }
      else m
    match m1.validate objs streamSeeker with
    | some err => (some (Error.cannotLoadStreamer id err), m1)
    | none => (none, { m1 with streamers := m1.streamers ++ [(id, streamSeeker)] })
  else
    (none, m)

/-- Method `Remove`: deletes the entry `id` from the map; an absent `id` is fine. -/
def Remove (m : Synchronized) (id : String) : Synchronized :=
  { m with streamers := m.streamers.filter (fun e => !(e.1 == id)) }

end Synchronized

/-- Constructor `NewMixer`: returns an empty, uninitialised mixer. -/
def NewMixer : Synchronized :=
  { streamers := [], position := 0, length := 0, err := none, isInitialized := false }

end streamer

/-! ## Definitions used to state the theorems -/

namespace beep

variable {α : Type}

/-- A buffer-backed seeker over the samples `d` with its cursor at `pos`. -/
def bufSeeker (d : List (Sample α)) (pos : Nat) : StreamSeeker α :=
  (bufferStreamer.mk d pos).toStreamSeeker

/-- The object `s` is a buffer-backed seeker over the samples `d`, with its
cursor anywhere. -/
def IsBuffer (d : List (Sample α)) (s : StreamSeeker α) : Prop :=
  ∃ pos, s = bufSeeker d pos

/-- Number of samples handed to the streamers in one round of `beep.Mix`. -/
def toStream (len : Nat) : Nat := if tmpLen > len then len else tmpLen

/-- The sample slice after the clearing loop of one round of `beep.Mix`. -/
def cleared [Zero α] (samples : List (Sample α)) : List (Sample α) :=
  List.replicate (toStream samples.length) ((0 : α), (0 : α)) ++ samples.drop (toStream samples.length)

/-- One addition of `beep.Mix`, `samples[i][c] += tmp[i][c]` on both channels. -/
def addSample [Add α] (a b : Sample α) : Sample α := (a.1 + b.1, a.2 + b.2)

/-- The sum that `beep.Mix` forms of the samples `xs`: `0 + x₁ + x₂ + ...`,
taken from left to right on both channels. -/
def mixSum [Add α] [Zero α] (xs : List (Sample α)) : Sample α :=
  xs.foldl addSample ((0 : α), (0 : α))

end beep

namespace streamer

open beep

variable {α : Type}

/-- A track of twenty samples, `(1, -1), (2, -2), ..., (20, -20)`. -/
def track20 : List (Sample Int) :=
  (List.range 20).map (fun i => ((i : Int) + 1, -((i : Int) + 1)))

/-- A track of 513 samples, one more than `beep.Mix` handles in one round. -/
def track513 : List (Sample Int) := List.replicate 513 (1, 1)

/-- A `beep.StreamSeeker` of length 20 whose `Seek` always returns an error (a
decoder whose source can no longer be repositioned) and whose `Stream` keeps
producing the sample `(100, 100)`. -/
def stuckSeeker : StreamSeeker Int where
  σ := Unit
  state := ()
  stream := fun _ k => (List.replicate k (100, 100), true, ())
  len := fun _ => 20
  position := fun _ => 0
  seek := fun _ _ => (some (Error.other "seek failed"), ())

/-- A `beep.StreamSeeker` whose `Len()` is 20 at first and grows by one with
every `Seek`. -/
def growingSeeker : StreamSeeker Int where
  σ := Nat
  state := 0
  stream := fun st k => (List.replicate k (0, 0), true, st)
  len := fun st => 20 + (st : Int)
  position := fun _ => 0
  seek := fun st _ => (none, st + 1)

/-- The objects of the examples: at address 0 and at address 2 a fresh seeker
over `track20`, at 1 the `stuckSeeker`, at 3 a seeker over the first 19 samples
of `track20`, at 4 the `growingSeeker`, at 5 a seeker over `track513`. -/
def demoObjects : Objects Int := fun a =>
  match a with
  | 0 => Buffer.Streamer track20 0 20
  | 1 => stuckSeeker
  | 2 => Buffer.Streamer track20 0 20
  | 3 => Buffer.Streamer track20 0 19
  | 4 => growingSeeker
  | 5 => Buffer.Streamer track513 0 513
  | _ => Buffer.Streamer [] 0 0

/-- The mixer of the test scenarios: `NewMixer()` followed by `Add` of the
buffer-backed seeker of length 20 at address 0 under the id `foo`. -/
def trackMixer : Synchronized :=
  (NewMixer.Add demoObjects 0 "foo").2

/-- The mixer `trackMixer` after `Add(stuckSeeker, "bad")`. -/
def stuckMixer : Synchronized :=
  (trackMixer.Add demoObjects 1 "bad").2

end streamer

/-! ## The buffer cache (`buffers/buffers.go`) and the readers (`reader/reader.go`) -/

namespace reader

/-- An `io.ReadCloser` as far as the program uses it: the bytes it yields and
what its `Close` returns. -/
structure ReadCloser where
  contents : List Nat
  close : Option Error

/-- The interface `IReader` with its single method `GetReadCloser`. -/
structure IReader where
  GetReadCloser : String → Except Error ReadCloser

/-- The reader `FileReader`: `GetReadCloser` returns the error of
`ioutil.ReadFile`, or the bytes of the file behind an `io.NopCloser`.  The file
system read by `ioutil.ReadFile` is the argument `readFile`. -/
def FileReader (readFile : String → Except Error (List Nat)) : IReader where
  GetReadCloser := fun path =>
    match readFile path with
    | .error err => .error err
    | .ok bytes => .ok ⟨bytes, none⟩

/-- The reader `DummyReader`: `GetReadCloser` returns `Contents` behind an
`io.NopCloser`, whatever the path. -/
def DummyReader (Contents : List Nat) : IReader where
  GetReadCloser := fun _ => .ok ⟨Contents, none⟩

end reader

namespace beep

/-- The struct `beep.Format` of the beep library. -/
structure Format where
  SampleRate : Int
  NumChannels : Int
  Precision : Int
  deriving DecidableEq, Repr

/-- Modelled from the spec: `beep.Buffer` of the external beep library, the
"Decoded Buffer": a sample format and a finite sequence of stereo samples.  The
byte encoding of the samples in the format's precision is abstracted away. -/
structure Buffer (α : Type) where
  f : Format
  data : List (Sample α)

/-- Modelled from the spec: `beep.NewBuffer(f)` of the beep library, an empty
buffer of format `f`. -/
def NewBuffer {α : Type} (f : Format) : Buffer α := ⟨f, []⟩

/-- Modelled from the spec: `beep.Buffer.Len` of the beep library, the number of
samples in the buffer. -/
def Buffer.Len {α : Type} (b : Buffer α) : Nat := b.data.length

/-- Modelled from the spec: `beep.Buffer.Append(s)` of the beep library: the
streamer `s` is drained and its samples are put after the ones in the buffer;
the argument is the sequence of samples that `s` yields. -/
def Buffer.Append {α : Type} (b : Buffer α) (s : List (Sample α)) : Buffer α :=
  { b with data := b.data ++ s }

/-- What a decoder hands back on success, a `beep.StreamSeekCloser` and its
format: the samples the streamer yields until it is drained, the native format
of the file, and what `Close` on the streamer returns. -/
structure Decoded (α : Type) where
  samples : List (Sample α)
  format : Format
  close : Option Error

/-- The two functions of external libraries that `Load` calls: `mp3.Decode` (an
error, or the decoded stream) and `beep.Resample(quality, old, new, s)` (given
by the samples it yields for the samples of `s`).  Both are parameters of the
model. -/
structure Codec (α : Type) where
  Decode : reader.ReadCloser → Except Error (Decoded α)
  Resample : Int → Int → Int → List (Sample α) → List (Sample α)

end beep

namespace buffers

open beep reader

/-- The struct `Buffers` (without its mutex). -/
structure Buffers (α : Type) where
  buffers : List (String × Buffer α)
  format : Format
  reader : IReader
  isInitialised : Bool

namespace Buffers

variable {α : Type}

/-- The test `_, exists := h.buffers[path]`. -/
def hasPath (h : Buffers α) (path : String) : Bool :=
  h.buffers.any (fun e => e.1 == path)

/-- The map read `h.buffers[path]`. -/
def lookup (h : Buffers α) (path : String) : Option (Buffer α) :=
  (h.buffers.find? (fun e => e.1 == path)).map Prod.snd

/-- Method `Load`: loads an audio file from `path` into a buffer.  Calling it
with a file already loaded takes no action. -/
def Load (c : Codec α) (h : Buffers α) (path : String) : Option Error × Buffers α :=
  if h.hasPath path then
    (none, h)
  else
    match h.reader.GetReadCloser path with
    | .error err => (some err, h)
    | .ok file =>
      match c.Decode file with
      | .error err => (some err, h)
      | .ok streamer =>
        let h1 : Buffers α :=
          if !h.isInitialised then
            { h with format := streamer.format, isInitialised := true }
          else h
        let buffer : Buffer α :=
          if h1.format.SampleRate = streamer.format.SampleRate then
            (NewBuffer h1.format).Append streamer.samples
          else
            (NewBuffer h1.format).Append
              (c.Resample 4 streamer.format.SampleRate h1.format.SampleRate streamer.samples)
        let h2 : Buffers α := { h1 with buffers := h1.buffers ++ [(path, buffer)] }
        match streamer.close with
        | some err => (some err, h2)
        | none => (none, h2)

/-- Method `Release`: frees the buffer of `path`; a path that is not loaded is
fine. -/
def Release (h : Buffers α) (path : String) : Buffers α :=
  { h with buffers := h.buffers.filter (fun e => !(e.1 == path)) }

/-- Method `ReleaseAll`: the loop `for path := range h.buffers` deletes every
path of the map. -/
def ReleaseAll (h : Buffers α) : Buffers α :=
  let deleted := (h.buffers.map Prod.fst).foldl
    (fun bs path => bs.filter (fun e => !(e.1 == path))) h.buffers
  { h with buffers := deleted }

/-- Results of `GetStreamSeeker`: the seeker (`nil` on an error), the error, and
the cache afterwards. -/
structure SeekerResult (α : Type) where
  seeker : Option (StreamSeeker α)
  err : Option Error
  cache : Buffers α

/-- Method `GetStreamSeeker`: returns a StreamSeeker from a buffer,
`buffer.Streamer(0, buffer.Len())`. -/
def GetStreamSeeker (h : Buffers α) (path : String) : SeekerResult α :=
  match h.lookup path with
  | none => ⟨none, some (Error.unloadedBuffer path), h⟩
  | some buffer => ⟨some (Buffer.Streamer buffer.data 0 buffer.Len), none, h⟩

/-- Results of `GetFormat`: the format, the error, and the cache afterwards. -/
structure FormatResult (α : Type) where
  format : Format
  err : Option Error
  cache : Buffers α

/-- Method `GetFormat`: returns the common format of all buffers. -/
def GetFormat (h : Buffers α) : FormatResult α :=
  if !h.isInitialised then
    ⟨⟨0, 0, 0⟩, some Error.notInitialised, h⟩
  else
    ⟨h.format, none, h⟩

end Buffers

/-- Constructor `New`: an empty cache; when `r` is `nil` the default
`reader.FileReader` is used, which reads the file system `readFile`. -/
def New (α : Type) (readFile : String → Except Error (List Nat)) (r : Option IReader) :
    Buffers α :=
  { buffers := [], format := ⟨0, 0, 0⟩, reader := r.getD (FileReader readFile),
    isInitialised := false }

/-- One call on the cache that may change it. -/
inductive CacheOp where
  | load (path : String)
  | release (path : String)
  | releaseAll

/-- The cache after one call. -/
def cacheStep {α : Type} (c : Codec α) (h : Buffers α) : CacheOp → Buffers α
  | .load path => (h.Load c path).2
  | .release path => h.Release path
  | .releaseAll => h.ReleaseAll

/-- The cache after a sequence of calls. -/
def cacheRun {α : Type} (c : Codec α) (h : Buffers α) (ops : List CacheOp) : Buffers α :=
  ops.foldl (cacheStep c) h

/-- No `Load` call of the sequence returns success (a nil error). -/
def noLoadSucceeds {α : Type} (c : Codec α) : Buffers α → List CacheOp → Bool
  | _, [] => true
  | h, .load path :: ops =>
    (h.Load c path).1.isSome && noLoadSucceeds c (h.Load c path).2 ops
  | h, op :: ops => noLoadSucceeds c (cacheStep c h op) ops


/-- A decoder for the examples: a file without bytes is not an mp3 file; a file
whose first byte is 1 decodes to `track20` at 44100 Hz, any other file to
`track20` at 48000 Hz; closing the stream closes the file.  Its resampler keeps
the share `new / old` of the samples. -/
def demoCodec : Codec Int where
  Decode := fun file =>
    match file.contents with
    | [] => .error (Error.other "mp3: not an mp3 file")
    | b :: _ =>
      .ok ⟨streamer.track20, ⟨if b = 1 then 44100 else 48000, 2, 2⟩, file.close⟩
  Resample := fun _ old new s => s.take (s.length * new.toNat / old.toNat)

/-- A reader for the examples: `a.mp3` (44100 Hz) and `b.mp3` (48000 Hz) are
fine, `c.mp3` is fine but its `Close` fails, `d.txt` is empty, and no other file
exists. -/
def demoReader : IReader where
  GetReadCloser := fun path =>
    if path = "a.mp3" then .ok ⟨[1], none⟩
    else if path = "b.mp3" then .ok ⟨[2], none⟩
    else if path = "c.mp3" then .ok ⟨[1], some (Error.other "close failed")⟩
    else if path = "d.txt" then .ok ⟨[], none⟩
    else .error (Error.other "no such file")

/-- The cache of the examples, `New(demoReader)`. -/
def demoCache : Buffers Int :=
  New Int (fun _ => .error (Error.other "no such file")) (some demoReader)

end buffers

namespace streamer

open beep

variable {α : Type}

/-- One call on the mixer that may change it; a seeker is given by its
address. -/
inductive MixerOp (α : Type) where
  | add (streamSeeker : Nat) (id : String)
  | remove (id : String)
  | seek (p : Int)
  | stream (samples : List (Sample α))

/-- The mixer and the objects after one call. -/
def mixerStep [Add α] [Zero α] (st : Synchronized × Objects α) :
    MixerOp α → Synchronized × Objects α
  | .add s id => ((st.1.Add st.2 s id).2, st.2)
  | .remove id => (st.1.Remove id, st.2)
  | .seek p => ((st.1.Seek p).2, st.2)
  | .stream samples => ((st.1.Stream st.2 samples).mixer, (st.1.Stream st.2 samples).objects)

/-- The mixer and the objects after a sequence of calls. -/
def mixerRun [Add α] [Zero α] (m : Synchronized) (objs : Objects α) (ops : List (MixerOp α)) :
    Synchronized × Objects α :=
  ops.foldl mixerStep (m, objs)

/-- The call, if it is an `Add`, adds a buffer-backed seeker. -/
def MixerOp.buffered (objs : Objects α) : MixerOp α → Prop
  | .add s _ => ∃ bs : bufferStreamer α, objs s = bs.toStreamSeeker
  | _ => True

/-- The invariant of a mixer whose participants are buffer-backed: every
participant is a `bufferStreamer` of the session length, the cursor lies in
`[0, length]`, no error is recorded, and before the first `Add` the mixer is
empty with length 0. -/
def buffersInvariant (m : Synchronized) (objs : Objects α) : Prop :=
  (∀ e ∈ m.streamers, ∃ bs : bufferStreamer α,
    objs e.2 = bs.toStreamSeeker ∧ (bs.data.length : Int) = m.length) ∧
  0 ≤ m.position ∧ m.position ≤ m.length ∧ m.err = none ∧
  (m.isInitialized = false → m.streamers = [] ∧ m.length = 0)

end streamer

/-! ## Lemmas about `beep.Mix` -/

namespace beep

variable {α : Type}

theorem Objects.set_same (objs : Objects α) (a : Nat) (s : StreamSeeker α) :
    (objs.set a s) a = s := by
  simp [Objects.set]

theorem Objects.set_other (objs : Objects α) (a b : Nat) (s : StreamSeeker α) (h : b ≠ a) :
    (objs.set a s) b = objs b := by
  simp [Objects.set, h]

theorem bufSeeker_Len (d : List (Sample α)) (pos : Nat) :
    (bufSeeker d pos).Len = (d.length : Int) := rfl

theorem bufSeeker_inj (d d2 : List (Sample α)) (pos pos2 : Nat)
    (h : bufSeeker d pos = bufSeeker d2 pos2) : d = d2 ∧ pos = pos2 := by
  unfold bufSeeker bufferStreamer.toStreamSeeker at h
  injection h with _ h2
  injection h2 with h4 h5
  exact ⟨h4, h5⟩

theorem bufSeeker_Seek (d : List (Sample α)) (pos : Nat) (p : Int)
    (h0 : 0 ≤ p) (h1 : p ≤ (d.length : Int)) :
    (bufSeeker d pos).Seek p = (none, bufSeeker d p.toNat) := by
  have h : ¬ (p < 0 ∨ (d.length : Int) < p) := by omega
  simp [bufSeeker, StreamSeeker.Seek, bufferStreamer.toStreamSeeker, bufferStreamer.Seek,
    bufferStreamer.Len, h]

theorem bufSeeker_Stream_live (d : List (Sample α)) (pos k : Nat) (h : pos < d.length) :
    (bufSeeker d pos).Stream k =
      ((d.drop pos).take k, true, bufSeeker d (pos + min k (d.length - pos))) := by
  have h' : ¬ (d.length ≤ pos) := by omega
  simp [bufSeeker, StreamSeeker.Stream, bufferStreamer.toStreamSeeker, bufferStreamer.Stream, h']

theorem bufSeeker_Stream_drained (d : List (Sample α)) (pos k : Nat) (h : d.length ≤ pos) :
    (bufSeeker d pos).Stream k = ([], false, bufSeeker d pos) := by
  simp [bufSeeker, StreamSeeker.Stream, bufferStreamer.toStreamSeeker, bufferStreamer.Stream, h]

theorem IsBuffer_Seek (d : List (Sample α)) (s : StreamSeeker α) (p : Int)
    (h : IsBuffer d s) : IsBuffer d (s.Seek p).2 := by
  obtain ⟨pos, rfl⟩ := h
  by_cases hb : p < 0 ∨ (d.length : Int) < p
  · refine ⟨pos, ?_⟩
    simp [bufSeeker, StreamSeeker.Seek, bufferStreamer.toStreamSeeker, bufferStreamer.Seek,
      bufferStreamer.Len, hb]
  · refine ⟨p.toNat, ?_⟩
    rw [bufSeeker_Seek d pos p (by omega) (by omega)]

theorem IsBuffer_Stream (d : List (Sample α)) (s : StreamSeeker α) (k : Nat)
    (h : IsBuffer d s) : IsBuffer d (s.Stream k).2.2 := by
  obtain ⟨pos, rfl⟩ := h
  by_cases hb : pos < d.length
  · rw [bufSeeker_Stream_live d pos k hb]; exact ⟨_, rfl⟩
  · rw [bufSeeker_Stream_drained d pos k (by omega)]; exact ⟨_, rfl⟩

theorem addInto_length [Add α] (s t : List (Sample α)) : (addInto s t).length = s.length := by
  induction s generalizing t with
  | nil => cases t <;> rfl
  | cons a s ih =>
    cases t with
    | nil => rfl
    | cons b t => simp [addInto, ih]

theorem addInto_getElem?_of_lt [Add α] (s t : List (Sample α)) (i : Nat) (dflt : Sample α)
    (h : i < t.length) :
    (addInto s t)[i]? = (s[i]?).map (fun a => addSample a (t.getD i dflt)) := by
  induction s generalizing t i with
  | nil =>
    cases t with
    | nil => simp at h
    | cons b t => simp [addInto]
  | cons a s ih =>
    cases t with
    | nil => simp at h
    | cons b t =>
      cases i with
      | zero => simp [addInto, addSample]
      | succ i =>
        simp only [List.length_cons, Nat.add_lt_add_iff_right] at h
        simp [addInto, ih t i h]

theorem foldl_addInto_length [Add α] (rows : List (List (Sample α))) (s : List (Sample α)) :
    (rows.foldl addInto s).length = s.length := by
  induction rows generalizing s with
  | nil => rfl
  | cons r rows ih => simp [ih, addInto_length]

theorem foldl_addInto_getElem?_of_lt [Add α] (rows : List (List (Sample α)))
    (s : List (Sample α)) (i : Nat) (dflt : Sample α) (h : ∀ r ∈ rows, i < r.length) :
    (rows.foldl addInto s)[i]? =
      (s[i]?).map (fun a => rows.foldl (fun acc r => addSample acc (r.getD i dflt)) a) := by
  induction rows generalizing s with
  | nil => simp
  | cons r rows ih =>
    rw [List.foldl_cons, ih _ (fun x hx => h x (List.mem_cons_of_mem _ hx)),
      addInto_getElem?_of_lt s r i dflt (h r (List.mem_cons_self _ _))]
    cases s[i]? with
    | none => rfl
    | some a => rfl

theorem mixSum_map [Add α] [Zero α] {β : Type} (l : List β) (f : β → Sample α) :
    mixSum (l.map f) = l.foldl (fun acc b => addSample acc (f b)) ((0 : α), (0 : α)) := by
  unfold mixSum
  rw [List.foldl_map]

theorem addSample_eq_add [AddCommMonoid α] (a b : Sample α) : addSample a b = a + b := rfl

theorem mixSum_eq_sum [AddCommMonoid α] (xs : List (Sample α)) :
    mixSum xs = ((xs.map Prod.fst).sum, (xs.map Prod.snd).sum) := by
  have key : ∀ (l : List (Sample α)) (acc : Sample α),
      l.foldl addSample acc = (acc.1 + (l.map Prod.fst).sum, acc.2 + (l.map Prod.snd).sum) := by
    intro l
    induction l with
    | nil => intro acc; simp
    | cons x xs ih =>
      intro acc
      rw [List.foldl_cons, ih]
      simp [addSample, add_assoc]
  unfold mixSum
  rw [key]
  simp

theorem toStream_eq (len : Nat) : toStream len = min 512 len := by
  unfold toStream tmpLen
  split_ifs <;> omega

theorem cleared_length [Zero α] (samples : List (Sample α)) :
    (cleared samples).length = samples.length := by
  simp [cleared, toStream_eq]

theorem cleared_getElem? [Zero α] (samples : List (Sample α)) (i : Nat)
    (h : i < toStream samples.length) : (cleared samples)[i]? = some ((0 : α), (0 : α)) := by
  unfold cleared
  rw [List.getElem?_append_left (by simpa using h)]
  simp [h]

theorem mixPass_cons [Add α] (t : Nat) (st : Nat) (rest : List Nat) (objs : Objects α)
    (samples : List (Sample α)) (snMax : Nat) (ok : Bool) :
    mixPass t (st :: rest) objs samples snMax ok =
      mixPass t rest (objs.set st ((objs st).Stream t).2.2)
        (addInto samples ((objs st).Stream t).1)
        (if ((objs st).Stream t).1.length > snMax then ((objs st).Stream t).1.length else snMax)
        (ok || ((objs st).Stream t).2.1) := rfl

theorem mixLoop_empty [Add α] [Zero α] (fuel : Nat) (s : List Nat) (objs : Objects α)
    (samples : List (Sample α)) (n : Nat) (ok : Bool) (h : samples.length = 0) :
    mixLoop fuel s objs samples n ok = ⟨objs, samples, n, ok⟩ := by
  cases fuel with
  | zero => rfl
  | succ fuel => simp [mixLoop, h]

theorem mixLoop_stop [Add α] [Zero α] (fuel : Nat) (s : List Nat) (objs : Objects α)
    (samples : List (Sample α)) (n : Nat) (ok : Bool) (h : 0 < samples.length)
    (hn : (mixPass (toStream samples.length) s objs (cleared samples) 0 ok).n < tmpLen) :
    mixLoop (fuel + 1) s objs samples n ok =
      ⟨(mixPass (toStream samples.length) s objs (cleared samples) 0 ok).objects,
       (mixPass (toStream samples.length) s objs (cleared samples) 0 ok).samples,
       n + (mixPass (toStream samples.length) s objs (cleared samples) 0 ok).n,
       (mixPass (toStream samples.length) s objs (cleared samples) 0 ok).ok⟩ := by
  unfold toStream cleared toStream at hn
  simp only [mixLoop, gt_iff_lt, h, if_true, hn, toStream, cleared]

theorem mixLoop_continue [Add α] [Zero α] (fuel : Nat) (s : List Nat) (objs : Objects α)
    (samples : List (Sample α)) (n : Nat) (ok : Bool) (h : 0 < samples.length)
    (hn : ¬ (mixPass (toStream samples.length) s objs (cleared samples) 0 ok).n < tmpLen) :
    mixLoop (fuel + 1) s objs samples n ok =
      { mixLoop fuel s (mixPass (toStream samples.length) s objs (cleared samples) 0 ok).objects
          ((mixPass (toStream samples.length) s objs (cleared samples) 0 ok).samples.drop
            (mixPass (toStream samples.length) s objs (cleared samples) 0 ok).n)
          (n + (mixPass (toStream samples.length) s objs (cleared samples) 0 ok).n)
          (mixPass (toStream samples.length) s objs (cleared samples) 0 ok).ok with
        samples :=
          (mixPass (toStream samples.length) s objs (cleared samples) 0 ok).samples.take
            (mixPass (toStream samples.length) s objs (cleared samples) 0 ok).n ++
          (mixLoop fuel s (mixPass (toStream samples.length) s objs (cleared samples) 0 ok).objects
            ((mixPass (toStream samples.length) s objs (cleared samples) 0 ok).samples.drop
              (mixPass (toStream samples.length) s objs (cleared samples) 0 ok).n)
            (n + (mixPass (toStream samples.length) s objs (cleared samples) 0 ok).n)
            (mixPass (toStream samples.length) s objs (cleared samples) 0 ok).ok).samples } := by
  unfold toStream cleared toStream at hn
  simp only [mixLoop, gt_iff_lt, h, if_true, hn, toStream, cleared, if_false]

theorem mixPass_samples_length [Add α] (t : Nat) (s : List Nat) (objs : Objects α)
    (samples : List (Sample α)) (snMax : Nat) (ok : Bool) :
    (mixPass t s objs samples snMax ok).samples.length = samples.length := by
  induction s generalizing objs samples snMax ok with
  | nil => rfl
  | cons st rest ih =>
    rw [mixPass_cons, ih, addInto_length]

/-- Fuel is never what stops `mixLoop`: every amount of fuel of at least
`len(samples)` gives the result of `beep.Mix`, for arbitrary streamers. -/
theorem mixLoop_enough_fuel [Add α] [Zero α] (fuel : Nat) :
    ∀ (fuel2 : Nat) (s : List Nat) (objs : Objects α) (samples : List (Sample α)) (n : Nat)
      (ok : Bool), samples.length ≤ fuel → samples.length ≤ fuel2 →
      mixLoop fuel s objs samples n ok = mixLoop fuel2 s objs samples n ok := by
  induction fuel with
  | zero =>
    intro fuel2 s objs samples n ok h1 _
    have h0 : samples.length = 0 := by omega
    rw [mixLoop_empty _ _ _ _ _ _ h0, mixLoop_empty _ _ _ _ _ _ h0]
  | succ fuel ih =>
    intro fuel2 s objs samples n ok h1 h2
    by_cases h0 : samples.length = 0
    · rw [mixLoop_empty _ _ _ _ _ _ h0, mixLoop_empty _ _ _ _ _ _ h0]
    · have hpos : 0 < samples.length := by omega
      obtain ⟨f2, rfl⟩ : ∃ f2, fuel2 = f2 + 1 := ⟨fuel2 - 1, by omega⟩
      by_cases hc : (mixPass (toStream samples.length) s objs (cleared samples) 0 ok).n < tmpLen
      · rw [mixLoop_stop fuel s objs samples n ok hpos hc,
          mixLoop_stop f2 s objs samples n ok hpos hc]
      · rw [mixLoop_continue fuel s objs samples n ok hpos hc,
          mixLoop_continue f2 s objs samples n ok hpos hc]
        have hl : ((mixPass (toStream samples.length) s objs (cleared samples) 0 ok).samples.drop
            (mixPass (toStream samples.length) s objs (cleared samples) 0 ok).n).length <
            samples.length := by
          rw [List.length_drop, mixPass_samples_length, cleared_length]
          unfold tmpLen at hc
          omega
        rw [ih f2 _ _ _ _ _ (by omega) (by omega)]

theorem mixLoop_nil [Add α] [Zero α] (fuel : Nat) (objs : Objects α)
    (samples : List (Sample α)) (n : Nat) (ok : Bool) :
    (mixLoop fuel [] objs samples n ok).objects = objs ∧
    (mixLoop fuel [] objs samples n ok).n = n ∧
    (mixLoop fuel [] objs samples n ok).ok = ok ∧
    (mixLoop fuel [] objs samples n ok).samples.length = samples.length := by
  cases fuel with
  | zero => exact ⟨rfl, rfl, rfl, rfl⟩
  | succ fuel =>
    by_cases h0 : samples.length = 0
    · rw [mixLoop_empty _ _ _ _ _ _ h0]
      exact ⟨rfl, rfl, rfl, rfl⟩
    · rw [mixLoop_stop fuel _ _ samples n ok (by omega) (by simp [mixPass, tmpLen])]
      simp [mixPass, cleared_length]

end beep

namespace beep

variable {α : Type}

theorem mixPass_frame [Add α] (t : Nat) (s : List Nat) (objs : Objects α)
    (samples : List (Sample α)) (snMax : Nat) (ok : Bool) (a : Nat) (ha : a ∉ s) :
    (mixPass t s objs samples snMax ok).objects a = objs a := by
  induction s generalizing objs samples snMax ok with
  | nil => rfl
  | cons st rest ih =>
    rw [mixPass_cons, ih _ _ _ _ (fun h => ha (List.mem_cons_of_mem _ h))]
    exact Objects.set_other _ _ _ _ (fun h => ha (by rw [h]; exact List.mem_cons_self _ _))

theorem mixPass_preserves [Add α] (P : Nat → StreamSeeker α → Prop)
    (hStream : ∀ a s k, P a s → P a (s.Stream k).2.2) (t : Nat) (s : List Nat)
    (objs : Objects α) (samples : List (Sample α)) (snMax : Nat) (ok : Bool) (a : Nat)
    (h : P a (objs a)) : P a ((mixPass t s objs samples snMax ok).objects a) := by
  induction s generalizing objs samples snMax ok with
  | nil => exact h
  | cons st rest ih =>
    rw [mixPass_cons]
    apply ih
    by_cases hst : a = st
    · subst hst
      rw [Objects.set_same]
      exact hStream _ _ _ h
    · rw [Objects.set_other _ _ _ _ hst]
      exact h

theorem mixPass_ok_mono [Add α] (t : Nat) (s : List Nat) (objs : Objects α)
    (samples : List (Sample α)) (snMax : Nat) (ok : Bool) (h : ok = true) :
    (mixPass t s objs samples snMax ok).ok = true := by
  induction s generalizing objs samples snMax ok with
  | nil => exact h
  | cons st rest ih =>
    rw [mixPass_cons]
    apply ih
    simp [h]

theorem mixLoop_frame [Add α] [Zero α] (fuel : Nat) (s : List Nat) (a : Nat) (ha : a ∉ s) :
    ∀ (objs : Objects α) (samples : List (Sample α)) (n : Nat) (ok : Bool),
      (mixLoop fuel s objs samples n ok).objects a = objs a := by
  induction fuel with
  | zero => intro objs samples n ok; rfl
  | succ fuel ih =>
    intro objs samples n ok
    by_cases h0 : samples.length = 0
    · rw [mixLoop_empty _ _ _ _ _ _ h0]
    · have hpos : 0 < samples.length := by omega
      by_cases hc : (mixPass (toStream samples.length) s objs (cleared samples) 0 ok).n < tmpLen
      · rw [mixLoop_stop fuel s objs samples n ok hpos hc]
        exact mixPass_frame _ _ _ _ _ _ a ha
      · rw [mixLoop_continue fuel s objs samples n ok hpos hc]
        show (mixLoop fuel s _ _ _ _).objects a = objs a
        rw [ih]
        exact mixPass_frame _ _ _ _ _ _ a ha

theorem mixLoop_preserves [Add α] [Zero α] (P : Nat → StreamSeeker α → Prop)
    (hStream : ∀ a s k, P a s → P a (s.Stream k).2.2) (fuel : Nat) (s : List Nat) (a : Nat) :
    ∀ (objs : Objects α) (samples : List (Sample α)) (n : Nat) (ok : Bool),
      P a (objs a) → P a ((mixLoop fuel s objs samples n ok).objects a) := by
  induction fuel with
  | zero => intro objs samples n ok h; exact h
  | succ fuel ih =>
    intro objs samples n ok h
    by_cases h0 : samples.length = 0
    · rw [mixLoop_empty _ _ _ _ _ _ h0]; exact h
    · have hpos : 0 < samples.length := by omega
      have hp := mixPass_preserves P hStream (toStream samples.length) s objs
        (cleared samples) 0 ok a h
      by_cases hc : (mixPass (toStream samples.length) s objs (cleared samples) 0 ok).n < tmpLen
      · rw [mixLoop_stop fuel s objs samples n ok hpos hc]
        exact hp
      · rw [mixLoop_continue fuel s objs samples n ok hpos hc]
        exact ih _ _ _ _ hp

theorem mixLoop_ok_mono [Add α] [Zero α] (fuel : Nat) (s : List Nat) :
    ∀ (objs : Objects α) (samples : List (Sample α)) (n : Nat) (ok : Bool),
      ok = true → (mixLoop fuel s objs samples n ok).ok = true := by
  induction fuel with
  | zero => intro objs samples n ok h; exact h
  | succ fuel ih =>
    intro objs samples n ok h
    by_cases h0 : samples.length = 0
    · rw [mixLoop_empty _ _ _ _ _ _ h0]; exact h
    · have hpos : 0 < samples.length := by omega
      have hp := mixPass_ok_mono (toStream samples.length) s objs (cleared samples) 0 ok h
      by_cases hc : (mixPass (toStream samples.length) s objs (cleared samples) 0 ok).n < tmpLen
      · rw [mixLoop_stop fuel s objs samples n ok hpos hc]
        exact hp
      · rw [mixLoop_continue fuel s objs samples n ok hpos hc]
        exact ih _ _ _ _ hp

theorem mixLoop_samples_length [Add α] [Zero α] (fuel : Nat) (s : List Nat) :
    ∀ (objs : Objects α) (samples : List (Sample α)) (n : Nat) (ok : Bool),
      (mixLoop fuel s objs samples n ok).samples.length = samples.length := by
  induction fuel with
  | zero => intro objs samples n ok; rfl
  | succ fuel ih =>
    intro objs samples n ok
    by_cases h0 : samples.length = 0
    · rw [mixLoop_empty _ _ _ _ _ _ h0]
    · have hpos : 0 < samples.length := by omega
      have hl := mixPass_samples_length (toStream samples.length) s objs (cleared samples) 0 ok
      rw [cleared_length] at hl
      by_cases hc : (mixPass (toStream samples.length) s objs (cleared samples) 0 ok).n < tmpLen
      · rw [mixLoop_stop fuel s objs samples n ok hpos hc]
        exact hl
      · rw [mixLoop_continue fuel s objs samples n ok hpos hc]
        simp only [List.length_append, List.length_take, ih, List.length_drop, hl]
        omega

/-- One round of `beep.Mix` over buffer-backed objects of length `L` whose
cursors lie in `[q, L]`; an object may occur several times in the slice.  The
count is at most `min t (L - q)`, and afterwards the cursors lie in
`[min (q + t) L, L]`. -/
theorem mixPass_buffers_bounds [Add α] (t L q : Nat) (s : List Nat) :
    ∀ (objs : Objects α) (samples : List (Sample α)) (snMax : Nat) (ok : Bool),
      (∀ a ∈ s, ∃ d pos, objs a = bufSeeker d pos ∧ d.length = L ∧ q ≤ pos ∧ pos ≤ L) →
      (mixPass t s objs samples snMax ok).n ≤ max snMax (min t (L - q)) ∧
      snMax ≤ (mixPass t s objs samples snMax ok).n ∧
      (∀ a ∈ s, ∃ d pos, (mixPass t s objs samples snMax ok).objects a = bufSeeker d pos ∧
        d.length = L ∧ min (q + t) L ≤ pos ∧ pos ≤ L) := by
  induction s with
  | nil =>
    intro objs samples snMax ok _
    exact ⟨by simp [mixPass], by simp [mixPass], fun a ha => absurd ha (List.not_mem_nil _)⟩
  | cons st rest ih =>
    intro objs samples snMax ok h
    obtain ⟨d, pos, hobj, hd, hq, hL⟩ := h st (List.mem_cons_self _ _)
    rw [mixPass_cons]
    -- the object at `st` after its call, and the count of that call
    have hcall : ∃ pos2, ((objs st).Stream t).2.2 = bufSeeker d pos2 ∧
        min (q + t) L ≤ pos2 ∧ pos2 ≤ L ∧ pos ≤ pos2 ∧
        ((objs st).Stream t).1.length ≤ min t (L - q) := by
      rw [hobj]
      by_cases hlive : pos < d.length
      · rw [bufSeeker_Stream_live d pos t hlive]
        refine ⟨pos + min t (d.length - pos), rfl, ?_, ?_, ?_, ?_⟩
        · omega
        · omega
        · omega
        · simp only [List.length_take, List.length_drop]
          omega
      · rw [bufSeeker_Stream_drained d pos t (by omega)]
        exact ⟨pos, rfl, by omega, hL, le_refl _, by simp⟩
    obtain ⟨pos2, hnew, hlo2, hhi2, hmono, hcount⟩ := hcall
    have hrest : ∀ a ∈ rest, ∃ d2 p2,
        (objs.set st ((objs st).Stream t).2.2) a = bufSeeker d2 p2 ∧ d2.length = L ∧
          q ≤ p2 ∧ p2 ≤ L := by
      intro a ha
      by_cases hast : a = st
      · subst hast
        rw [Objects.set_same, hnew]
        exact ⟨d, pos2, rfl, hd, by omega, hhi2⟩
      · rw [Objects.set_other _ _ _ _ hast]
        exact h a (List.mem_cons_of_mem _ ha)
    obtain ⟨h1, h2, h3⟩ := ih (objs.set st ((objs st).Stream t).2.2)
      (addInto samples ((objs st).Stream t).1)
      (if ((objs st).Stream t).1.length > snMax then ((objs st).Stream t).1.length else snMax)
      (ok || ((objs st).Stream t).2.1) hrest
    have hmax : (if ((objs st).Stream t).1.length > snMax then ((objs st).Stream t).1.length
        else snMax) = max snMax ((objs st).Stream t).1.length := by
      split_ifs <;> omega
    rw [hmax] at h1 h2 h3 ⊢
    refine ⟨by omega, by omega, ?_⟩
    · intro a ha
      by_cases har : a ∈ rest
      · exact h3 a har
      · have hast : a = st := by
          rcases List.mem_cons.mp ha with h' | h'
          · exact h'
          · exact absurd h' har
        subst hast
        rw [mixPass_frame _ _ _ _ _ _ a har, Objects.set_same, hnew]
        exact ⟨d, pos2, rfl, hd, hlo2, hhi2⟩

/-- The first call of a round returns true when the first streamer is a
buffer-backed object that is not drained. -/
theorem mixPass_ok_of_head [Add α] (t : Nat) (st : Nat) (rest : List Nat) (objs : Objects α)
    (samples : List (Sample α)) (snMax : Nat) (ok : Bool) (d : List (Sample α)) (pos : Nat)
    (hobj : objs st = bufSeeker d pos) (hlive : pos < d.length) :
    (mixPass t (st :: rest) objs samples snMax ok).ok = true := by
  rw [mixPass_cons]
  apply mixPass_ok_mono
  rw [hobj, bufSeeker_Stream_live d pos t hlive]
  simp

/-- The loop of `beep.Mix` over buffer-backed objects of length `L` whose cursors
lie in `[q, L]`, with objects possibly occurring several times: the count grows
by at most `L - q`, and the objects stay buffer-backed objects of length `L`
with cursors up to `L`. -/
theorem mixLoop_buffers_bounds [Add α] [Zero α] (L : Nat) (s : List Nat) (fuel : Nat) :
    ∀ (q : Nat) (objs : Objects α) (samples : List (Sample α)) (n : Nat) (ok : Bool),
      q ≤ L →
      (∀ a ∈ s, ∃ d pos, objs a = bufSeeker d pos ∧ d.length = L ∧ q ≤ pos ∧ pos ≤ L) →
      n ≤ (mixLoop fuel s objs samples n ok).n ∧
      (mixLoop fuel s objs samples n ok).n ≤ n + (L - q) ∧
      (∀ a ∈ s, ∃ d pos, (mixLoop fuel s objs samples n ok).objects a = bufSeeker d pos ∧
        d.length = L ∧ q ≤ pos ∧ pos ≤ L) := by
  induction fuel with
  | zero =>
    intro q objs samples n ok _ h
    exact ⟨le_refl _, by simp [mixLoop], h⟩
  | succ fuel ih =>
    intro q objs samples n ok hqL h
    by_cases h0 : samples.length = 0
    · rw [mixLoop_empty _ _ _ _ _ _ h0]
      exact ⟨le_refl _, by simp, h⟩
    · have hpos : 0 < samples.length := by omega
      obtain ⟨h1, _, h3⟩ := mixPass_buffers_bounds (toStream samples.length) L q s objs
        (cleared samples) 0 ok h
      have ht : toStream samples.length ≤ 512 := by rw [toStream_eq]; omega
      by_cases hc : (mixPass (toStream samples.length) s objs (cleared samples) 0 ok).n < tmpLen
      · rw [mixLoop_stop fuel s objs samples n ok hpos hc]
        refine ⟨by simp, ?_, ?_⟩
        · simp only
          omega
        · intro a ha
          obtain ⟨d, pos, e1, e2, e3, e4⟩ := h3 a ha
          exact ⟨d, pos, e1, e2, by omega, e4⟩
      · rw [mixLoop_continue fuel s objs samples n ok hpos hc]
        unfold tmpLen at hc
        have hn512 : (mixPass (toStream samples.length) s objs (cleared samples) 0 ok).n = 512 := by
          omega
        have hLq : 512 ≤ L - q := by omega
        have htt : toStream samples.length = 512 := by omega
        obtain ⟨g1, g2, g3⟩ := ih (q + 512)
          (mixPass (toStream samples.length) s objs (cleared samples) 0 ok).objects
          ((mixPass (toStream samples.length) s objs (cleared samples) 0 ok).samples.drop
            (mixPass (toStream samples.length) s objs (cleared samples) 0 ok).n)
          (n + (mixPass (toStream samples.length) s objs (cleared samples) 0 ok).n)
          (mixPass (toStream samples.length) s objs (cleared samples) 0 ok).ok
          (by omega)
          (by
            intro a ha
            obtain ⟨d, pos, e1, e2, e3, e4⟩ := h3 a ha
            exact ⟨d, pos, e1, e2, by rw [htt] at e3; omega, e4⟩)
        refine ⟨?_, ?_, ?_⟩
        · simp only; omega
        · simp only; omega
        · intro a ha
          obtain ⟨d, pos, e1, e2, e3, e4⟩ := g3 a ha
          exact ⟨d, pos, e1, e2, by omega, e4⟩

/-- The loop of `beep.Mix` returns true when the slice and the sample slice are
not empty and the first streamer is a buffer-backed object that is not drained. -/
theorem mixLoop_ok_of_head [Add α] [Zero α] (fuel : Nat) (st : Nat) (rest : List Nat)
    (objs : Objects α) (samples : List (Sample α)) (n : Nat) (ok : Bool)
    (d : List (Sample α)) (pos : Nat) (hobj : objs st = bufSeeker d pos)
    (hlive : pos < d.length) (hs : 0 < samples.length) (hf : 0 < fuel) :
    (mixLoop fuel (st :: rest) objs samples n ok).ok = true := by
  obtain ⟨f, rfl⟩ : ∃ f, fuel = f + 1 := ⟨fuel - 1, by omega⟩
  have hp := mixPass_ok_of_head (toStream samples.length) st rest objs (cleared samples) 0 ok
    d pos hobj hlive
  by_cases hc : (mixPass (toStream samples.length) (st :: rest) objs (cleared samples) 0 ok).n
      < tmpLen
  · rw [mixLoop_stop f _ objs samples n ok hs hc]
    exact hp
  · rw [mixLoop_continue f _ objs samples n ok hs hc]
    exact mixLoop_ok_mono _ _ _ _ _ _ hp

end beep

namespace beep

variable {α : Type}

/-- One round of `beep.Mix` over pairwise distinct buffer-backed objects of
length `L`, all with their cursor at `q < L`. -/
theorem mixPass_distinct_live [Add α] (t L q : Nat) (data : Nat → List (Sample α))
    (hq : q < L) (s : List Nat) :
    ∀ (objs : Objects α) (samples : List (Sample α)) (snMax : Nat) (ok : Bool),
      s.Nodup → (∀ a ∈ s, objs a = bufSeeker (data a) q) → (∀ a ∈ s, (data a).length = L) →
      (∀ a ∈ s, (mixPass t s objs samples snMax ok).objects a =
        bufSeeker (data a) (q + min t (L - q))) ∧
      (mixPass t s objs samples snMax ok).samples =
        (s.map (fun a => ((data a).drop q).take t)).foldl addInto samples ∧
      (mixPass t s objs samples snMax ok).n =
        (if s.isEmpty then snMax else max snMax (min t (L - q))) ∧
      (mixPass t s objs samples snMax ok).ok = (ok || !s.isEmpty) := by
  induction s with
  | nil =>
    intro objs samples snMax ok _ _ _
    exact ⟨fun a ha => absurd ha (List.not_mem_nil _), by simp [mixPass], by simp [mixPass],
      by simp [mixPass]⟩
  | cons st rest ih =>
    intro objs samples snMax ok hnd hobj hlen
    have hst : st ∉ rest := (List.nodup_cons.mp hnd).1
    have hd : (data st).length = L := hlen st (List.mem_cons_self _ _)
    have hcall := bufSeeker_Stream_live (data st) q t (by omega)
    rw [← hobj st (List.mem_cons_self _ _)] at hcall
    rw [mixPass_cons, hcall]
    obtain ⟨h1, h2, h3, h4⟩ := ih (objs.set st (bufSeeker (data st) (q + min t ((data st).length - q))))
      (addInto samples (((data st).drop q).take t))
      (if (((data st).drop q).take t).length > snMax then (((data st).drop q).take t).length
        else snMax)
      (ok || true) (List.nodup_cons.mp hnd).2
      (by
        intro a ha
        have : a ≠ st := fun h => hst (h ▸ ha)
        rw [Objects.set_other _ _ _ _ this]
        exact hobj a (List.mem_cons_of_mem _ ha))
      (fun a ha => hlen a (List.mem_cons_of_mem _ ha))
    refine ⟨?_, ?_, ?_, ?_⟩
    · intro a ha
      rcases List.mem_cons.mp ha with h' | h'
      · subst h'
        rw [mixPass_frame _ _ _ _ _ _ a hst, Objects.set_same, hd]
      · exact h1 a h'
    · rw [h2]; rfl
    · rw [h3]
      simp only [List.length_take, List.length_drop, hd, List.isEmpty_cons, Bool.false_eq_true,
        if_false]
      split_ifs <;> omega
    · rw [h4]; simp

/-- One round of `beep.Mix` over buffer-backed objects that are all drained. -/
theorem mixPass_drained [Add α] (t q : Nat) (data : Nat → List (Sample α)) (s : List Nat) :
    ∀ (objs : Objects α) (samples : List (Sample α)) (snMax : Nat) (ok : Bool),
      (∀ a ∈ s, objs a = bufSeeker (data a) q) → (∀ a ∈ s, (data a).length ≤ q) →
      (∀ a, (mixPass t s objs samples snMax ok).objects a = objs a) ∧
      (mixPass t s objs samples snMax ok).samples = samples ∧
      (mixPass t s objs samples snMax ok).n = snMax ∧
      (mixPass t s objs samples snMax ok).ok = ok := by
  induction s with
  | nil =>
    intro objs samples snMax ok _ _
    exact ⟨fun _ => rfl, rfl, rfl, rfl⟩
  | cons st rest ih =>
    intro objs samples snMax ok hobj hlen
    have hcall := bufSeeker_Stream_drained (data st) q t (hlen st (List.mem_cons_self _ _))
    rw [← hobj st (List.mem_cons_self _ _)] at hcall
    rw [mixPass_cons, hcall]
    have hsame : ∀ a, (objs.set st (objs st)) a = objs a := by
      intro a
      by_cases h : a = st
      · subst h; rw [Objects.set_same]
      · rw [Objects.set_other _ _ _ _ h]
    obtain ⟨h1, h2, h3, h4⟩ := ih (objs.set st (objs st)) (addInto samples []) 
      (if ([] : List (Sample α)).length > snMax then ([] : List (Sample α)).length else snMax)
      (ok || false)
      (by intro a ha; rw [hsame]; exact hobj a (List.mem_cons_of_mem _ ha))
      (fun a ha => hlen a (List.mem_cons_of_mem _ ha))
    refine ⟨fun a => by rw [h1, hsame], ?_, ?_, ?_⟩
    · rw [h2]; cases samples <;> rfl
    · rw [h3]; simp
    · rw [h4]; simp

theorem pass_getElem? [Add α] [Zero α] (data : Nat → List (Sample α)) (s : List Nat)
    (samples : List (Sample α)) (q i L : Nat) (hlen : ∀ a ∈ s, (data a).length = L)
    (hi : i < toStream samples.length) (hiL : q + i < L) :
    ((s.map (fun a => ((data a).drop q).take (toStream samples.length))).foldl addInto
        (cleared samples))[i]? =
      some (mixSum (s.map (fun a => (data a).getD (q + i) ((0 : α), (0 : α))))) := by
  rw [foldl_addInto_getElem?_of_lt _ _ i ((0 : α), (0 : α)) (by
    intro r hr
    simp only [List.mem_map] at hr
    obtain ⟨a, ha, rfl⟩ := hr
    simp only [List.length_take, List.length_drop, hlen a ha]
    omega), cleared_getElem? samples i hi, mixSum_map]
  simp only [Option.map_some']
  rw [List.foldl_map]
  congr 1
  apply List.foldl_ext
  intro acc a ha
  simp [List.getD_eq_getElem?_getD, List.getElem?_take, hi]

/-- The loop of `beep.Mix` over pairwise distinct buffer-backed objects of length
`L`, all with their cursor at `q`. -/
theorem mixLoop_distinct [Add α] [Zero α] (L : Nat) (data : Nat → List (Sample α))
    (s : List Nat) (hnd : s.Nodup) (hne : s ≠ []) (hlen : ∀ a ∈ s, (data a).length = L) :
    ∀ (fuel : Nat) (objs : Objects α) (samples : List (Sample α)) (q n : Nat) (ok : Bool),
      samples.length ≤ fuel → (∀ a ∈ s, objs a = bufSeeker (data a) q) →
      (∀ a ∈ s, (mixLoop fuel s objs samples n ok).objects a =
          bufSeeker (data a) (q + min samples.length (L - q))) ∧
      (mixLoop fuel s objs samples n ok).n = n + min samples.length (L - q) ∧
      (mixLoop fuel s objs samples n ok).ok =
          (ok || (decide (q < L) && decide (0 < samples.length))) ∧
      ∀ i, i < min samples.length (L - q) →
        (mixLoop fuel s objs samples n ok).samples[i]? =
          some (mixSum (s.map (fun a => (data a).getD (q + i) ((0 : α), (0 : α))))) := by
  have hemp : s.isEmpty = false := by
    cases s with
    | nil => exact absurd rfl hne
    | cons _ _ => rfl
  intro fuel
  induction fuel with
  | zero =>
    intro objs samples q n ok hf hobj
    have h0 : samples.length = 0 := by omega
    rw [mixLoop_empty _ _ _ _ _ _ h0]
    simp only [h0, Nat.zero_min, Nat.add_zero]
    exact ⟨hobj, trivial, by simp, fun i hi => absurd hi (Nat.not_lt_zero _)⟩
  | succ fuel ih =>
    intro objs samples q n ok hf hobj
    by_cases h0 : samples.length = 0
    · rw [mixLoop_empty _ _ _ _ _ _ h0]
      simp only [h0, Nat.zero_min, Nat.add_zero]
      exact ⟨hobj, trivial, by simp, fun i hi => absurd hi (Nat.not_lt_zero _)⟩
    · have hpos : 0 < samples.length := by omega
      by_cases hq : q < L
      · obtain ⟨p1, p2, p3, p4⟩ := mixPass_distinct_live (toStream samples.length) L q data hq s
          objs (cleared samples) 0 ok hnd hobj hlen
        simp only [hemp, Bool.false_eq_true, if_false, Bool.not_false, Bool.or_true,
          Nat.zero_max] at p3 p4
        by_cases hc : min (toStream samples.length) (L - q) < tmpLen
        · rw [mixLoop_stop fuel s objs samples n ok hpos (by rw [p3]; exact hc)]
          have hmin : min (toStream samples.length) (L - q) = min samples.length (L - q) := by
            rw [toStream_eq] at hc ⊢
            unfold tmpLen at hc
            omega
          simp only [p2, p3, p4, hmin]
          refine ⟨fun a ha => by rw [p1 a ha, hmin], trivial, by simp [hq, hpos], ?_⟩
          intro i hi
          have hi' : i < toStream samples.length := by rw [← hmin] at hi; omega
          exact pass_getElem? data s samples q i L hlen hi' (by omega)
        · rw [mixLoop_continue fuel s objs samples n ok hpos (by rw [p3]; exact hc)]
          have ht : toStream samples.length = 512 := by
            rw [toStream_eq] at hc ⊢
            unfold tmpLen at hc
            omega
          have hmin : min (toStream samples.length) (L - q) = 512 := by
            rw [ht] at hc ⊢
            unfold tmpLen at hc
            omega
          have hlen512 : 512 ≤ samples.length := by
            rw [toStream_eq] at ht; omega
          have hL : 512 ≤ L - q := by rw [ht] at hmin; omega
          have hplen : (mixPass (toStream samples.length) s objs (cleared samples) 0 ok).samples.length
              = samples.length := by
            rw [mixPass_samples_length, cleared_length]
          rw [hmin] at p1 p3
          simp only [p3]
          obtain ⟨h1, h2, h3, h5⟩ := ih
            (mixPass (toStream samples.length) s objs (cleared samples) 0 ok).objects
            ((mixPass (toStream samples.length) s objs (cleared samples) 0 ok).samples.drop 512)
            (q + 512) (n + 512)
            (mixPass (toStream samples.length) s objs (cleared samples) 0 ok).ok
            (by rw [List.length_drop, hplen]; omega) p1
          rw [List.length_drop, hplen] at h1 h2 h3 h5
          refine ⟨?_, ?_, ?_, ?_⟩
          · intro a ha
            rw [h1 a ha]
            have : q + 512 + min (samples.length - 512) (L - (q + 512)) =
                q + min samples.length (L - q) := by omega
            rw [this]
          · rw [h2]; omega
          · rw [h3, p4]; simp [hq, hpos]
          · intro i hi
            have htl : (List.take 512
                (mixPass (toStream samples.length) s objs (cleared samples) 0 ok).samples).length
                = 512 := by
              rw [List.length_take, hplen]; omega
            by_cases hi512 : i < 512
            · rw [List.getElem?_append_left (by rw [htl]; exact hi512)]
              rw [List.getElem?_take_of_lt hi512, p2]
              exact pass_getElem? data s samples q i L hlen (by rw [ht]; exact hi512) (by omega)
            · rw [List.getElem?_append_right (by rw [htl]; omega), htl]
              rw [h5 (i - 512) (by omega)]
              have : q + 512 + (i - 512) = q + i := by omega
              rw [this]
      · obtain ⟨p1, p2, p3, p4⟩ := mixPass_drained (toStream samples.length) q data s objs
          (cleared samples) 0 ok hobj (fun a ha => by rw [hlen a ha]; omega)
        rw [mixLoop_stop fuel s objs samples n ok hpos (by rw [p3]; simp [tmpLen])]
        have hmin : min samples.length (L - q) = 0 := by omega
        simp only [hmin, p3, p4]
        refine ⟨fun a ha => by rw [p1 a]; exact hobj a ha, by simp, by simp [hq], ?_⟩
        intro i hi
        omega

end beep

/-! ## Lemmas about the mixer -/

namespace streamer

open beep Synchronized

variable {α : Type}

theorem find_append_single (l : List (String × Nat)) (id : String) (s : Nat)
    (h : l.any (fun e => e.1 == id) = false) :
    ((l ++ [(id, s)]).find? (fun e => e.1 == id)).map Prod.snd = some s := by
  induction l with
  | nil => simp
  | cons x xs ih =>
    simp only [List.any_cons, Bool.or_eq_false_iff] at h
    rw [List.cons_append, List.find?_cons, h.1]
    exact ih h.2

theorem Add_first (m : Synchronized) (objs : Objects α) (s : Nat) (id : String)
    (hid : m.hasId id = false) (hi : m.isInitialized = false) :
    m.Add objs s id = (none, { m with length := (objs s).Len, isInitialized := true,
                                      streamers := m.streamers ++ [(id, s)] }) := by
  simp [Synchronized.Add, hid, hi, Synchronized.validate]

theorem Add_matching (m : Synchronized) (objs : Objects α) (s : Nat) (id : String)
    (hid : m.hasId id = false) (hi : m.isInitialized = true) (hl : m.length = (objs s).Len) :
    m.Add objs s id = (none, { m with streamers := m.streamers ++ [(id, s)] }) := by
  simp [Synchronized.Add, hid, hi, Synchronized.validate, hl]

theorem Add_mismatch (m : Synchronized) (objs : Objects α) (s : Nat) (id : String)
    (hid : m.hasId id = false) (hi : m.isInitialized = true) (hl : m.length ≠ (objs s).Len) :
    m.Add objs s id =
      (some (Error.cannotLoadStreamer id (Error.lengthMismatch m.length (objs s).Len)), m) := by
  simp [Synchronized.Add, hid, hi, Synchronized.validate, hl]

theorem Add_existing (m : Synchronized) (objs : Objects α) (s : Nat) (id : String)
    (hid : m.hasId id = true) : m.Add objs s id = (none, m) := by
  simp [Synchronized.Add, hid]

theorem find_filter_ne (l : List (String × Nat)) (id id' : String) (h : id' ≠ id) :
    (l.filter (fun e => !(e.1 == id))).find? (fun e => e.1 == id') =
      l.find? (fun e => e.1 == id') := by
  induction l with
  | nil => rfl
  | cons x xs ih =>
    by_cases hx : x.1 = id
    · have h1 : (x.1 == id) = true := by simp [hx]
      have h2 : (x.1 == id') = false := by
        simp only [beq_eq_false_iff_ne, ne_eq]; rw [hx]; exact fun e => h e.symm
      rw [List.filter_cons, List.find?_cons]
      simp only [h1, h2, Bool.not_true]
      exact ih
    · have h1 : (x.1 == id) = false := by simp [hx]
      rw [List.filter_cons]
      simp only [h1, Bool.not_false, if_true]
      rw [List.find?_cons, List.find?_cons, ih]

theorem seekAll_cons (p : Int) (id : String) (a : Nat) (rest : List (String × Nat))
    (objs : Objects α) (err : Option Error) :
    seekAll p ((id, a) :: rest) objs err =
      seekAll p rest (objs.set a ((objs a).Seek p).2)
        (if ((objs a).Seek p).1.isSome then some (Error.cannotSeekStreamer id p) else err) := rfl

theorem seekAll_preserves (P : Nat → StreamSeeker α → Prop)
    (hSeek : ∀ a s p, P a s → P a (s.Seek p).2) (p : Int) (l : List (String × Nat)) (a : Nat) :
    ∀ (objs : Objects α) (err : Option Error),
      P a (objs a) → P a ((seekAll p l objs err).1 a) := by
  induction l with
  | nil => intro objs err h; exact h
  | cons x xs ih =>
    obtain ⟨id, st⟩ := x
    intro objs err h
    rw [seekAll_cons]
    apply ih
    by_cases hst : a = st
    · subst hst
      rw [Objects.set_same]
      exact hSeek _ _ _ h
    · rw [Objects.set_other _ _ _ _ hst]
      exact h

/-- The inner loop of `getStreamers` on buffer-backed participants of length `L`
with `0 ≤ p ≤ L`: no `Seek` fails, every participant's cursor ends at `p`, and
every other buffer-backed object is untouched.  A participant may be stored
under several ids. -/
theorem seekAll_buffers (p : Int) (L : Nat) (hp0 : 0 ≤ p) (hpL : p ≤ (L : Int))
    (l : List (String × Nat)) :
    ∀ (objs : Objects α) (err : Option Error),
      (∀ e ∈ l, ∃ d pos, objs e.2 = bufSeeker d pos ∧ d.length = L) →
      (seekAll p l objs err).2 = err ∧
      ∀ a d pos, objs a = bufSeeker d pos →
        (seekAll p l objs err).1 a =
          bufSeeker d (if a ∈ l.map Prod.snd then p.toNat else pos) := by
  induction l with
  | nil =>
    intro objs err _
    exact ⟨rfl, fun a d pos h => by simpa [seekAll] using h⟩
  | cons x xs ih =>
    obtain ⟨id, st⟩ := x
    intro objs err h
    obtain ⟨d0, pos0, hobj, hd0⟩ := h (id, st) (List.mem_cons_self _ _)
    have hseek := bufSeeker_Seek d0 pos0 p hp0 (by rw [hd0]; exact hpL)
    rw [← hobj] at hseek
    rw [seekAll_cons, hseek]
    simp only [Option.isSome_none, Bool.false_eq_true, if_false]
    obtain ⟨h1, h2⟩ := ih (objs.set st (bufSeeker d0 p.toNat)) err (by
      intro e he
      by_cases hest : e.2 = st
      · rw [hest, Objects.set_same]
        exact ⟨d0, p.toNat, rfl, hd0⟩
      · rw [Objects.set_other _ _ _ _ hest]
        exact h e (List.mem_cons_of_mem _ he))
    refine ⟨h1, ?_⟩
    intro a d pos ha
    by_cases hast : a = st
    · subst hast
      rw [hobj] at ha
      obtain ⟨hdd, _⟩ := bufSeeker_inj _ _ _ _ ha
      subst hdd
      rw [h2 a d0 p.toNat (Objects.set_same _ _ _)]
      simp
    · rw [h2 a d pos (by rw [Objects.set_other _ _ _ _ hast]; exact ha)]
      have hiff : (a ∈ List.map Prod.snd ((id, st) :: xs)) ↔ (a ∈ List.map Prod.snd xs) := by
        simp [hast]
      by_cases hm : a ∈ List.map Prod.snd xs
      · rw [if_pos hm, if_pos (hiff.mpr hm)]
      · rw [if_neg hm, if_neg (fun h' => hm (hiff.mp h'))]

theorem getStreamersRounds_cons (p : Int) (r : String × Nat) (rest : List (String × Nat))
    (m : Synchronized) (objs : Objects α) :
    getStreamersRounds p (r :: rest) m objs =
      getStreamersRounds p rest { m with err := (seekAll p m.streamers objs m.err).2 }
        (seekAll p m.streamers objs m.err).1 := rfl

theorem getStreamersRounds_frame (p : Int) (rounds : List (String × Nat)) :
    ∀ (m : Synchronized) (objs : Objects α),
      (getStreamersRounds p rounds m objs).1.streamers = m.streamers ∧
      (getStreamersRounds p rounds m objs).1.position = m.position ∧
      (getStreamersRounds p rounds m objs).1.length = m.length ∧
      (getStreamersRounds p rounds m objs).1.isInitialized = m.isInitialized := by
  induction rounds with
  | nil => intro m objs; exact ⟨rfl, rfl, rfl, rfl⟩
  | cons r rs ih =>
    intro m objs
    rw [getStreamersRounds_cons]
    exact ih _ _

theorem getStreamersRounds_preserves (P : Nat → StreamSeeker α → Prop)
    (hSeek : ∀ a s p, P a s → P a (s.Seek p).2) (p : Int) (rounds : List (String × Nat))
    (a : Nat) :
    ∀ (m : Synchronized) (objs : Objects α),
      P a (objs a) → P a ((getStreamersRounds p rounds m objs).2 a) := by
  induction rounds with
  | nil => intro m objs h; exact h
  | cons r rs ih =>
    intro m objs h
    rw [getStreamersRounds_cons]
    exact ih _ _ (seekAll_preserves P hSeek p m.streamers a objs m.err h)

/-- The loops of `getStreamers` on buffer-backed participants of length `L` with
`0 ≤ p ≤ L`: the mixer is unchanged (no error is recorded), and every
participant's cursor is at `p` once a round has run. -/
theorem getStreamersRounds_buffers (p : Int) (L : Nat) (hp0 : 0 ≤ p) (hpL : p ≤ (L : Int))
    (rounds : List (String × Nat)) :
    ∀ (m : Synchronized) (objs : Objects α),
      (∀ e ∈ m.streamers, ∃ d pos, objs e.2 = bufSeeker d pos ∧ d.length = L) →
      (getStreamersRounds p rounds m objs).1 = m ∧
      ∀ a d pos, objs a = bufSeeker d pos →
        (getStreamersRounds p rounds m objs).2 a =
          bufSeeker d (if rounds ≠ [] ∧ a ∈ m.streamers.map Prod.snd then p.toNat else pos) := by
  induction rounds with
  | nil =>
    intro m objs _
    exact ⟨rfl, fun a d pos h => by simpa [getStreamersRounds] using h⟩
  | cons r rs ih =>
    intro m objs h
    obtain ⟨s1, s2⟩ := seekAll_buffers p L hp0 hpL m.streamers objs m.err h
    rw [getStreamersRounds_cons, s1]
    obtain ⟨h1, h2⟩ := ih m (seekAll p m.streamers objs m.err).1 (by
      intro e he
      obtain ⟨d, pos, hobj, hd⟩ := h e he
      exact ⟨d, _, s2 e.2 d pos hobj, hd⟩)
    refine ⟨h1, ?_⟩
    intro a d pos ha
    rw [h2 a d _ (s2 a d pos ha)]
    by_cases hmem : a ∈ m.streamers.map Prod.snd
    · simp [hmem]
    · simp [hmem]

theorem getStreamers_returns_all (m : Synchronized) (objs : Objects α) (p : Int) :
    (m.getStreamers objs p).1.length = m.streamers.length := by
  simp [Synchronized.getStreamers]

theorem Stream_of_drained [Add α] [Zero α] (m : Synchronized) (objs : Objects α)
    (samples : List (Sample α)) (h : m.position ≥ m.length) :
    m.Stream objs samples = ⟨0, false, samples, m, objs⟩ := by
  simp [Synchronized.Stream, h]

theorem Stream_preserves [Add α] [Zero α] (P : Nat → StreamSeeker α → Prop)
    (hSeek : ∀ a s p, P a s → P a (s.Seek p).2)
    (hStream : ∀ a s k, P a s → P a (s.Stream k).2.2)
    (m : Synchronized) (objs : Objects α) (samples : List (Sample α)) (a : Nat)
    (h : P a (objs a)) : P a ((m.Stream objs samples).objects a) := by
  by_cases hge : m.position ≥ m.length
  · rw [Stream_of_drained m objs samples hge]; exact h
  · simp only [Synchronized.Stream, hge, if_false, Synchronized.getStreamers, Mix]
    exact mixLoop_preserves P hStream _ _ a _ _ _ _
      (getStreamersRounds_preserves P hSeek m.position m.streamers a m objs h)

theorem Stream_ok_false_of_end [Add α] [Zero α] (m : Synchronized) (objs : Objects α)
    (samples : List (Sample α))
    (h : (m.Stream objs samples).mixer.position = m.length) :
    (m.Stream objs samples).ok = false := by
  by_cases hge : m.position ≥ m.length
  · simp [Synchronized.Stream, hge]
  · have hf := getStreamersRounds_frame m.position m.streamers m objs
    simp only [Synchronized.Stream, hge, if_false, Synchronized.getStreamers, hf.2.1,
      hf.2.2.1] at h ⊢
    simp [h]

theorem Stream_no_participants [Add α] [Zero α] (m : Synchronized) (objs : Objects α)
    (samples : List (Sample α)) (hs : m.streamers = []) :
    (m.Stream objs samples).n = 0 ∧ (m.Stream objs samples).ok = false ∧
    (m.Stream objs samples).mixer = m ∧ (m.Stream objs samples).objects = objs := by
  by_cases hge : m.position ≥ m.length
  · rw [Stream_of_drained m objs samples hge]; exact ⟨rfl, rfl, rfl, rfl⟩
  · have hn := mixLoop_nil (α := α) samples.length objs samples 0 false
    simp only [Synchronized.Stream, hge, if_false, Synchronized.getStreamers, hs,
      getStreamersRounds, List.map_nil, Mix, hn.1, hn.2.1, hn.2.2.1]
    refine ⟨by simp, by simp, ?_, trivial⟩
    cases m
    simp_all

theorem Stream_empty_buffer [Add α] [Zero α] (m : Synchronized) (objs : Objects α)
    (hp : m.position < m.length) :
    (m.Stream objs []).n = 0 ∧ (m.Stream objs []).ok = false ∧
    (m.Stream objs []).mixer.position = m.position := by
  have hge : ¬ (m.position ≥ m.length) := by omega
  have hf := getStreamersRounds_frame m.position m.streamers m objs
  simp only [Synchronized.Stream, hge, if_false, Synchronized.getStreamers, Mix, List.length_nil,
    mixLoop, hf.2.1]
  simp

end streamer

namespace streamer

open beep Synchronized

variable {α : Type}

/-- The objects after `getStreamers` at the cursor of a mixer whose participants
are buffer-backed objects of the session length: every participant has its
cursor at the mixer's cursor, and the mixer is unchanged. -/
theorem getStreamers_buffers (m : Synchronized) (objs : Objects α)
    (hbuf : ∀ e ∈ m.streamers, ∃ bs : bufferStreamer α,
      objs e.2 = bs.toStreamSeeker ∧ (bs.data.length : Int) = m.length)
    (hp0 : 0 ≤ m.position) (hp : m.position ≤ m.length) :
    (m.getStreamers objs m.position).1 = m.streamers.map Prod.snd ∧
    (m.getStreamers objs m.position).2.1 = m ∧
    (∀ e ∈ m.streamers, ∃ d, (m.getStreamers objs m.position).2.2 e.2 =
        bufSeeker d m.position.toNat ∧ d.length = m.length.toNat ∧ IsBuffer d (objs e.2)) := by
  have hpre : ∀ e ∈ m.streamers, ∃ d pos, objs e.2 = bufSeeker d pos ∧
      d.length = m.length.toNat := by
    intro e he
    obtain ⟨bs, h1, h2⟩ := hbuf e he
    exact ⟨bs.data, bs.pos, h1, by omega⟩
  obtain ⟨h1, h2⟩ := getStreamersRounds_buffers m.position m.length.toNat hp0 (by omega)
    m.streamers m objs hpre
  refine ⟨rfl, h1, ?_⟩
  intro e he
  obtain ⟨d, pos, hobj, hd⟩ := hpre e he
  refine ⟨d, ?_, hd, ⟨pos, hobj⟩⟩
  show (getStreamersRounds m.position m.streamers m objs).2 e.2 = _
  rw [h2 e.2 d pos hobj]
  have hne : m.streamers ≠ [] := List.ne_nil_of_mem he
  have hmem : e.2 ∈ m.streamers.map Prod.snd := List.mem_map_of_mem Prod.snd he
  simp [hne, hmem]

/-- `Stream` on a mixer whose participants are buffer-backed objects of the
session length, with the cursor below the length; a seeker may be stored under
several ids. -/
theorem Stream_buffers [Add α] [Zero α] (m : Synchronized) (objs : Objects α)
    (samples : List (Sample α))
    (hbuf : ∀ e ∈ m.streamers, ∃ bs : bufferStreamer α,
      objs e.2 = bs.toStreamSeeker ∧ (bs.data.length : Int) = m.length)
    (hp0 : 0 ≤ m.position) (hp : m.position < m.length) :
    0 ≤ (m.Stream objs samples).n ∧
    m.position + (m.Stream objs samples).n ≤ m.length ∧
    (m.Stream objs samples).mixer =
      { m with position := m.position + (m.Stream objs samples).n } ∧
    (m.streamers ≠ [] → 0 < samples.length →
      ((m.Stream objs samples).ok = false ↔
        m.position + (m.Stream objs samples).n = m.length)) ∧
    (∀ e ∈ m.streamers, ∃ bs : bufferStreamer α,
      (m.Stream objs samples).objects e.2 = bs.toStreamSeeker ∧
      (bs.data.length : Int) = m.length) := by
  have hge : ¬ (m.position ≥ m.length) := by omega
  obtain ⟨g1, g2, g3⟩ := getStreamers_buffers m objs hbuf hp0 (by omega)
  have hpre : ∀ a ∈ m.streamers.map Prod.snd, ∃ d pos,
      (m.getStreamers objs m.position).2.2 a = bufSeeker d pos ∧ d.length = m.length.toNat ∧
        m.position.toNat ≤ pos ∧ pos ≤ m.length.toNat := by
    intro a ha
    simp only [List.mem_map] at ha
    obtain ⟨e, he, rfl⟩ := ha
    obtain ⟨d, hd1, hd2, _⟩ := g3 e he
    exact ⟨d, _, hd1, hd2, le_refl _, by omega⟩
  obtain ⟨b1, b2, b3⟩ := mixLoop_buffers_bounds m.length.toNat (m.streamers.map Prod.snd)
    samples.length m.position.toNat (m.getStreamers objs m.position).2.2 samples 0 false
    (by omega) hpre
  have hS : m.Stream objs samples =
      ⟨((Mix (m.getStreamers objs m.position).2.2 (m.streamers.map Prod.snd) samples).n : Int),
        (if m.position +
            ((Mix (m.getStreamers objs m.position).2.2 (m.streamers.map Prod.snd) samples).n : Int)
            = m.length then false
          else (Mix (m.getStreamers objs m.position).2.2 (m.streamers.map Prod.snd) samples).ok),
        (Mix (m.getStreamers objs m.position).2.2 (m.streamers.map Prod.snd) samples).samples,
        { m with position := m.position +
            ((Mix (m.getStreamers objs m.position).2.2 (m.streamers.map Prod.snd) samples).n
              : Int) },
        (Mix (m.getStreamers objs m.position).2.2 (m.streamers.map Prod.snd) samples).objects⟩ := by
    simp only [Synchronized.Stream, hge, if_false, g1, g2]
  rw [hS]
  simp only [Mix] at b1 b2 b3 ⊢
  refine ⟨by omega, by omega, trivial, ?_, ?_⟩
  · intro hne hs
    have hok : (mixLoop samples.length (m.streamers.map Prod.snd)
        (m.getStreamers objs m.position).2.2 samples 0 false).ok = true := by
      cases hl : m.streamers with
      | nil => exact absurd hl hne
      | cons e es =>
        obtain ⟨d, hd1, hd2, _⟩ := g3 e (by rw [hl]; exact List.mem_cons_self _ _)
        rw [List.map_cons]
        exact mixLoop_ok_of_head _ _ _ _ _ _ _ d _ hd1 (by omega) hs hs
    rw [hok]
    by_cases he : m.position + ((mixLoop samples.length (m.streamers.map Prod.snd)
        (m.getStreamers objs m.position).2.2 samples 0 false).n : Int) = m.length
    · simp [he]
    · simp [he]
  · intro e he
    obtain ⟨d, pos, hd1, hd2, _, _⟩ := b3 e.2 (List.mem_map_of_mem Prod.snd he)
    exact ⟨⟨d, pos⟩, hd1, by simp only; omega⟩

/-- `Stream` on a mixer whose participants are pairwise distinct buffer-backed
objects of the session length, with the cursor below the length. -/
theorem Stream_distinct [Add α] [Zero α] (m : Synchronized) (objs : Objects α)
    (samples : List (Sample α)) (data : Nat → List (Sample α))
    (hnd : (m.streamers.map Prod.snd).Nodup) (hne : m.streamers ≠ [])
    (hbuf : ∀ e ∈ m.streamers, IsBuffer (data e.2) (objs e.2) ∧
      ((data e.2).length : Int) = m.length)
    (hp0 : 0 ≤ m.position) (hp : m.position < m.length) :
    (m.Stream objs samples).n = min (samples.length : Int) (m.length - m.position) ∧
    (m.Stream objs samples).ok = (decide (0 < samples.length) &&
      !decide (m.position + min (samples.length : Int) (m.length - m.position) = m.length)) ∧
    (m.Stream objs samples).mixer =
      { m with position := m.position + min (samples.length : Int) (m.length - m.position) } ∧
    (∀ e ∈ m.streamers, (m.Stream objs samples).objects e.2 =
      bufSeeker (data e.2)
        (m.position + min (samples.length : Int) (m.length - m.position)).toNat) ∧
    (∀ i : Nat, (i : Int) < min (samples.length : Int) (m.length - m.position) →
      (m.Stream objs samples).samples[i]? =
        some (mixSum (m.streamers.map
          (fun e => (data e.2).getD (m.position.toNat + i) ((0 : α), (0 : α)))))) := by
  have hge : ¬ (m.position ≥ m.length) := by omega
  have hbuf2 : ∀ e ∈ m.streamers, ∃ bs : bufferStreamer α,
      objs e.2 = bs.toStreamSeeker ∧ (bs.data.length : Int) = m.length := by
    intro e he
    obtain ⟨⟨pos, hobj⟩, hl⟩ := hbuf e he
    exact ⟨⟨data e.2, pos⟩, hobj, hl⟩
  obtain ⟨g1, g2, g3⟩ := getStreamers_buffers m objs hbuf2 hp0 (by omega)
  have hobj1 : ∀ a ∈ m.streamers.map Prod.snd,
      (m.getStreamers objs m.position).2.2 a = bufSeeker (data a) m.position.toNat := by
    intro a ha
    simp only [List.mem_map] at ha
    obtain ⟨e, he, rfl⟩ := ha
    obtain ⟨d, hd1, _, ⟨pos, hd3⟩⟩ := g3 e he
    obtain ⟨⟨pos2, hobj⟩, _⟩ := hbuf e he
    rw [hobj] at hd3
    obtain ⟨hdd, _⟩ := bufSeeker_inj _ _ _ _ hd3
    rw [hd1, hdd]
  have hlen : ∀ a ∈ m.streamers.map Prod.snd, (data a).length = m.length.toNat := by
    intro a ha
    simp only [List.mem_map] at ha
    obtain ⟨e, he, rfl⟩ := ha
    have := (hbuf e he).2
    omega
  have hne2 : m.streamers.map Prod.snd ≠ [] := by
    intro h
    exact hne (List.map_eq_nil_iff.mp h)
  obtain ⟨e1, e2, e3, e4⟩ := mixLoop_distinct m.length.toNat data (m.streamers.map Prod.snd)
    hnd hne2 hlen samples.length (m.getStreamers objs m.position).2.2 samples
    m.position.toNat 0 false (le_refl _) hobj1
  have hn : ((min samples.length (m.length.toNat - m.position.toNat) : Nat) : Int) =
      min (samples.length : Int) (m.length - m.position) := by omega
  have hS : m.Stream objs samples =
      ⟨((Mix (m.getStreamers objs m.position).2.2 (m.streamers.map Prod.snd) samples).n : Int),
        (if m.position +
            ((Mix (m.getStreamers objs m.position).2.2 (m.streamers.map Prod.snd) samples).n : Int)
            = m.length then false
          else (Mix (m.getStreamers objs m.position).2.2 (m.streamers.map Prod.snd) samples).ok),
        (Mix (m.getStreamers objs m.position).2.2 (m.streamers.map Prod.snd) samples).samples,
        { m with position := m.position +
            ((Mix (m.getStreamers objs m.position).2.2 (m.streamers.map Prod.snd) samples).n
              : Int) },
        (Mix (m.getStreamers objs m.position).2.2 (m.streamers.map Prod.snd) samples).objects⟩ := by
    simp only [Synchronized.Stream, hge, if_false, g1, g2]
  rw [hS]
  simp only [Mix, e2, e3, Nat.zero_add, Bool.false_or, hn]
  refine ⟨trivial, ?_, trivial, ?_, ?_⟩
  · by_cases hs : 0 < samples.length
    · have : m.position.toNat < m.length.toNat := by omega
      by_cases he : m.position + min (samples.length : Int) (m.length - m.position) = m.length
      · simp [he]
      · simp [he, hs, this]
    · have h0 : samples.length = 0 := by omega
      have : ¬ (m.position + min ((samples.length : Nat) : Int) (m.length - m.position)
          = m.length) := by omega
      simp [this, h0]
  · intro e he
    rw [e1 e.2 (List.mem_map_of_mem Prod.snd he)]
    have : m.position.toNat + min samples.length (m.length.toNat - m.position.toNat) =
        (m.position + min (samples.length : Int) (m.length - m.position)).toNat := by omega
    rw [this]
  · intro i hi
    rw [e4 i (by omega), List.map_map]
    rfl

end streamer

/-! ## The claims about the mixer -/

namespace streamer

open beep Synchronized

variable {α : Type}

/-- The contents of buffer-backed participants, as a function of the address. -/
theorem exists_data (m : Synchronized) (objs : Objects α)
    (hbuf : ∀ e ∈ m.streamers, ∃ bs : bufferStreamer α,
      objs e.2 = bs.toStreamSeeker ∧ (bs.data.length : Int) = m.length) :
    ∃ data : Nat → List (Sample α), ∀ e ∈ m.streamers,
      IsBuffer (data e.2) (objs e.2) ∧ ((data e.2).length : Int) = m.length := by
  classical
  refine ⟨fun a => if h : ∃ bs : bufferStreamer α, objs a = bs.toStreamSeeker
    then (Classical.choose h).data else [], ?_⟩
  intro e he
  obtain ⟨bs, h1, h2⟩ := hbuf e he
  have hex : ∃ bs : bufferStreamer α, objs e.2 = bs.toStreamSeeker := ⟨bs, h1⟩
  have hc := Classical.choose_spec hex
  simp only [hex, dif_pos]
  have hc2 : bufSeeker (Classical.choose hex).data (Classical.choose hex).pos =
      bufSeeker bs.data bs.pos := by
    show (Classical.choose hex).toStreamSeeker = bs.toStreamSeeker
    rw [← hc, h1]
  obtain ⟨hd, _⟩ := bufSeeker_inj _ _ _ _ hc2
  rw [hd]
  exact ⟨⟨bs.pos, h1⟩, h2⟩

/-- C1: for every mixer state and every integer `p`, `Seek(p)` returns an error
exactly when `p < 0` or `p > Len()`; on an error the mixer (so `Position()`) is
what it was before the call, and on success `Position()` is `p`. -/
theorem Seek_error_iff_out_of_bounds (m : Synchronized) (p : Int) :
    ((m.Seek p).1 ≠ none ↔ (p < 0 ∨ p > m.Len)) ∧
    ((m.Seek p).1 ≠ none → (m.Seek p).2 = m ∧ (m.Seek p).2.Position = m.Position) ∧
    ((m.Seek p).1 = none → (m.Seek p).2.Position = p) := by
  unfold Synchronized.Seek Synchronized.Len Synchronized.Position
  by_cases h : p < 0 ∨ p > m.length
  · simp [h]
  · simp [h]

/-- Witness of C1 on the one-track mixer of length 20: `Seek(-1)` and `Seek(21)`
fail and leave the position at 0, `Seek(15)` succeeds and moves it to 15. -/
theorem Seek_error_iff_out_of_bounds_witness :
    (trackMixer.Seek (-1)).2.Position = trackMixer.Position ∧
    (trackMixer.Seek 21).2.Position = trackMixer.Position ∧
    (trackMixer.Seek 15).2.Position = 15 :=
  ⟨((Seek_error_iff_out_of_bounds trackMixer (-1)).2.1 (by decide)).2,
   ((Seek_error_iff_out_of_bounds trackMixer 21).2.1 (by decide)).2,
   (Seek_error_iff_out_of_bounds trackMixer 15).2.2 (by decide)⟩

set_option maxRecDepth 100000 in
/-- C2 as stated fails when one seeker is a participant under two ids: the
seeker over 513 samples at address 5 is added as `a` and as `b`, so the mixer
has two participants, both buffer-backed and of length `Len() = 513`, and the
cursor is 0.  `Stream` on a buffer of size 513 returns `n = 512`, not
`min(513, 513 - 0) = 513`; the position afterwards is 512 and `ok` is true.  The
two participants share one cursor, so the second read of the first round drains
the seeker. -/
theorem aliased_seeker_streams_short :
    (((NewMixer.Add demoObjects 5 "a").2.Add demoObjects 5 "b").2.streamers.length = 2 ∧
      ((NewMixer.Add demoObjects 5 "a").2.Add demoObjects 5 "b").2.Len = 513 ∧
      (demoObjects 5).Len = 513 ∧
      ((NewMixer.Add demoObjects 5 "a").2.Add demoObjects 5 "b").2.Position = 0) ∧
    ((((NewMixer.Add demoObjects 5 "a").2.Add demoObjects 5 "b").2.Stream demoObjects
        (List.replicate 513 (0, 0))).n = 512 ∧
      (((NewMixer.Add demoObjects 5 "a").2.Add demoObjects 5 "b").2.Stream demoObjects
        (List.replicate 513 (0, 0))).mixer.Position = 512 ∧
      (((NewMixer.Add demoObjects 5 "a").2.Add demoObjects 5 "b").2.Stream demoObjects
        (List.replicate 513 (0, 0))).ok = true) ∧
    ¬ ((((NewMixer.Add demoObjects 5 "a").2.Add demoObjects 5 "b").2.Stream demoObjects
        (List.replicate 513 (0, 0))).n = min (513 : Int) (513 - 0)) := by
  decide

/-- C2 amended: a mixer with at least one participant, all of them buffer-backed
seekers of length `Len()`, with `0 ≤ Position() < Len()`, streaming into a buffer
of size `k > 0`.  `Stream` returns an `n` with `0 ≤ n ≤ Len() - Position()`, the
position afterwards is the old position plus `n`, `Len()` stays, and `ok` is
false exactly when that new position is `Len()`.  When the participants are
pairwise distinct seeker objects, `n = min k (Len() - Position())`. -/
theorem Stream_returns_min_and_advances [Add α] [Zero α] (m : Synchronized)
    (objs : Objects α) (samples : List (Sample α))
    (hne : m.streamers ≠ [])
    (hbuf : ∀ e ∈ m.streamers, ∃ bs : bufferStreamer α,
      objs e.2 = bs.toStreamSeeker ∧ (bs.data.length : Int) = m.Len)
    (hp0 : 0 ≤ m.Position) (hp : m.Position < m.Len) (hk : 0 < samples.length) :
    (0 ≤ (m.Stream objs samples).n ∧ m.Position + (m.Stream objs samples).n ≤ m.Len) ∧
    (m.Stream objs samples).mixer.Position = m.Position + (m.Stream objs samples).n ∧
    (m.Stream objs samples).mixer.Len = m.Len ∧
    ((m.Stream objs samples).ok = false ↔ m.Position + (m.Stream objs samples).n = m.Len) ∧
    ((m.streamers.map Prod.snd).Nodup →
      (m.Stream objs samples).n = min (samples.length : Int) (m.Len - m.Position)) := by
  simp only [Synchronized.Len, Synchronized.Position] at *
  obtain ⟨h1, h2, h3, h4, _⟩ := Stream_buffers m objs samples hbuf hp0 hp
  refine ⟨⟨h1, h2⟩, by rw [h3], by rw [h3], h4 hne hk, ?_⟩
  intro hnd
  obtain ⟨data, hdata⟩ := exists_data m objs hbuf
  exact (Stream_distinct m objs samples data hnd hne hdata hp0 hp).1

/-- Witness of C2 amended, the two scenarios of the specification.  One
participant of length 20: after `Seek(15)` a buffer of size 10 gives `n = 5`,
`ok = false` and position 20; at position 0 a buffer of size 5 gives `n = 5`,
`ok = true` and position 5. -/
theorem Stream_returns_min_and_advances_witness :
    (((trackMixer.Seek 15).2.Stream demoObjects (List.replicate 10 (0, 0))).n = 5 ∧
      ((trackMixer.Seek 15).2.Stream demoObjects (List.replicate 10 (0, 0))).mixer.Position = 20 ∧
      ((trackMixer.Seek 15).2.Stream demoObjects (List.replicate 10 (0, 0))).ok = false) ∧
    ((trackMixer.Stream demoObjects (List.replicate 5 (0, 0))).n = 5 ∧
      (trackMixer.Stream demoObjects (List.replicate 5 (0, 0))).mixer.Position = 5 ∧
      (trackMixer.Stream demoObjects (List.replicate 5 (0, 0))).ok = true) := by
  have hb : ∀ e ∈ [(("foo", 0) : String × Nat)], ∃ bs : bufferStreamer Int,
      demoObjects e.2 = bs.toStreamSeeker ∧ (bs.data.length : Int) = 20 := by
    intro e he
    simp only [List.mem_singleton] at he
    subst he
    exact ⟨⟨(track20.take 20).drop 0, 0⟩, rfl, by decide⟩
  have h1 := Stream_returns_min_and_advances (trackMixer.Seek 15).2 demoObjects
    (List.replicate 10 (0, 0)) (by decide) hb (by decide) (by decide) (by decide)
  have h2 := Stream_returns_min_and_advances trackMixer demoObjects
    (List.replicate 5 (0, 0)) (by decide) hb (by decide) (by decide) (by decide)
  have e1 : (trackMixer.Seek 15).2.Len = 20 := by decide
  have e2 : (trackMixer.Seek 15).2.Position = 15 := by decide
  have e3 : trackMixer.Len = 20 := by decide
  have e4 : trackMixer.Position = 0 := by decide
  rw [e1, e2] at h1
  rw [e3, e4] at h2
  obtain ⟨_, a2, _, a4, a5⟩ := h1
  obtain ⟨_, b2, _, b4, b5⟩ := h2
  have a1 := a5 (by decide)
  have b1 := b5 (by decide)
  simp only [List.length_replicate] at a1 b1
  have a1n : ((trackMixer.Seek 15).2.Stream demoObjects (List.replicate 10 (0, 0))).n = 5 := by
    rw [a1]; decide
  have b1n : (trackMixer.Stream demoObjects (List.replicate 5 (0, 0))).n = 5 := by
    rw [b1]; decide
  rw [a1n] at a2 a4
  rw [b1n] at b2 b4
  refine ⟨⟨a1n, by rw [a2]; decide, a4.mpr (by decide)⟩, b1n, by rw [b2]; decide, ?_⟩
  cases hb2 : (trackMixer.Stream demoObjects (List.replicate 5 (0, 0))).ok with
  | true => rfl
  | false => exact absurd (b4.mp hb2) (by decide)

/-- C3 as stated fails when one seeker is a participant under two ids: the
seeker over `track20` at address 0 is added as `foo` and as `bar`, so the mixer
has two participants of identical content and of the session length, and the
cursor is 0.  `Stream` on a buffer of size 5 writes `(7, -7)` at index 0, the
sum of the samples at the indices 0 and 5, where the sum over the participants
of the sample at index 0 is `(2, -2)`, the double of the `(1, -1)` that the mixer
holding only `foo` writes. -/
theorem aliased_seeker_output_is_not_sum :
    ((trackMixer.Add demoObjects 0 "bar").2.streamers = [("foo", 0), ("bar", 0)] ∧
      (demoObjects 0).Len = (trackMixer.Add demoObjects 0 "bar").2.Len ∧
      (trackMixer.Add demoObjects 0 "bar").2.Position = 0) ∧
    ((trackMixer.Add demoObjects 0 "bar").2.Stream demoObjects
        (List.replicate 5 (0, 0))).samples =
      [(7, -7), (9, -9), (11, -11), (13, -13), (15, -15)] ∧
    (trackMixer.Stream demoObjects (List.replicate 5 (0, 0))).samples =
      [(1, -1), (2, -2), (3, -3), (4, -4), (5, -5)] ∧
    track20[0]? = some (1, -1) ∧ track20[5]? = some (6, -6) ∧
    ((trackMixer.Add demoObjects 0 "bar").2.Stream demoObjects
        (List.replicate 5 (0, 0))).samples[0]? ≠ some (1 + 1, -1 + -1) := by
  decide

/-- C3 amended: a mixer whose participants are pairwise distinct seeker objects,
each a buffer-backed seeker of the session length (`data a` is the content of the
object at address `a`), with `0 ≤ Position() < Len()`.  Every one of the `n`
samples that `Stream` writes is, channel by channel, the sum `0 + s₁ + s₂ + ...`
over the participants, in the order of the map, of the participant's sample at
index `Position() + i` (an index inside every participant's data); no law of `+`
is used.  When the participants are two distinct objects of identical content,
the mixer holding only the first writes `0 + x` and this mixer writes
`(0 + x) + x`, where `x` is the sample of the content; if `0 + y = y` for every
amplitude, that is `x` and its double `x + x`. -/
theorem Stream_output_is_sum [Add α] [Zero α] (m : Synchronized) (objs : Objects α)
    (samples : List (Sample α)) (data : Nat → List (Sample α))
    (hnd : (m.streamers.map Prod.snd).Nodup)
    (hbuf : ∀ e ∈ m.streamers, IsBuffer (data e.2) (objs e.2) ∧
      ((data e.2).length : Int) = m.Len)
    (hp0 : 0 ≤ m.Position) (hp : m.Position < m.Len) :
    (∀ i : Nat, (i : Int) < (m.Stream objs samples).n →
      (∀ e ∈ m.streamers, m.Position.toNat + i < (data e.2).length) ∧
      (m.Stream objs samples).samples[i]? =
        some (mixSum (m.streamers.map
          (fun e => (data e.2).getD (m.Position.toNat + i) ((0 : α), (0 : α)))))) ∧
    (∀ (ida idb : String) (a b : Nat),
      m.streamers = [(ida, a), (idb, b)] → data a = data b →
      ∀ i : Nat, (i : Int) < (m.Stream objs samples).n →
        ∃ x : Sample α, (data a)[m.Position.toNat + i]? = some x ∧
          ({ m with streamers := [(ida, a)] }.Stream objs samples).samples[i]? =
            some (addSample ((0 : α), (0 : α)) x) ∧
          (m.Stream objs samples).samples[i]? =
            some (addSample (addSample ((0 : α), (0 : α)) x) x) ∧
          ((∀ y : α, (0 : α) + y = y) →
            ({ m with streamers := [(ida, a)] }.Stream objs samples).samples[i]? = some x ∧
            (m.Stream objs samples).samples[i]? = some (x.1 + x.1, x.2 + x.2))) := by
  simp only [Synchronized.Len, Synchronized.Position] at *
  by_cases hne : m.streamers = []
  · have h0 := (Stream_no_participants m objs samples hne).1
    rw [h0]
    refine ⟨?_, ?_⟩
    · intro i hi; omega
    · intro ida idb a b he; rw [hne] at he; simp at he
  · obtain ⟨hn, _, _, _, hs⟩ := Stream_distinct m objs samples data hnd hne hbuf hp0 hp
    rw [hn]
    refine ⟨?_, ?_⟩
    · intro i hi
      refine ⟨?_, hs i hi⟩
      intro e he
      have := (hbuf e he).2
      omega
    · intro ida idb a b he hab i hi
      have hma : ((ida, a) : String × Nat) ∈ m.streamers := by rw [he]; simp
      have hla : ((data a).length : Int) = m.length := (hbuf (ida, a) hma).2
      have hlt : m.position.toNat + i < (data a).length := by omega
      have hx : (data a)[m.position.toNat + i]? = some ((data a)[m.position.toNat + i]) :=
        List.getElem?_eq_getElem hlt
      have hgd : (data a).getD (m.position.toNat + i) ((0 : α), (0 : α)) =
          (data a)[m.position.toNat + i] := by
        rw [List.getD_eq_getElem?_getD, hx]; rfl
      have hsingle := (Stream_distinct { m with streamers := [(ida, a)] } objs samples data
        (by simp) (by simp)
        (by
          intro e he2
          simp only [List.mem_singleton] at he2
          subst he2
          exact hbuf (ida, a) hma) hp0 hp).2.2.2.2 i hi
      have hboth := hs i hi
      simp only [he, List.map_cons, List.map_nil, ← hab, hgd] at hboth
      simp only [List.map_cons, List.map_nil, hgd] at hsingle
      have e1 : mixSum [(data a)[m.position.toNat + i]] =
          addSample ((0 : α), (0 : α)) (data a)[m.position.toNat + i] := rfl
      have e2 : mixSum [(data a)[m.position.toNat + i], (data a)[m.position.toNat + i]] =
          addSample (addSample ((0 : α), (0 : α)) (data a)[m.position.toNat + i])
            (data a)[m.position.toNat + i] := rfl
      rw [e1] at hsingle
      rw [e2] at hboth
      refine ⟨(data a)[m.position.toNat + i], hx, hsingle, hboth, ?_⟩
      intro h0
      rw [hsingle, hboth]
      simp only [addSample, h0]
      exact ⟨trivial, trivial⟩

/-- Witness of C3 amended: the two seekers over `track20` at the addresses 0 and
2 are the participants `foo` and `bar`, the position is 0 and the buffer has
size 5; the sample at index 2 is `(6, -6)`, the double of the sample `(3, -3)`
that the mixer holding only `foo` writes there. -/
theorem Stream_output_is_sum_witness :
    ((trackMixer.Add demoObjects 2 "bar").2.Stream demoObjects
        (List.replicate 5 (0, 0))).samples[2]? = some (6, -6) ∧
    ∃ x : Sample Int, track20[0 + 2]? = some x ∧
      ({ (trackMixer.Add demoObjects 2 "bar").2 with streamers := [("foo", 0)] }.Stream
        demoObjects (List.replicate 5 (0, 0))).samples[2]? = some x ∧
      ((trackMixer.Add demoObjects 2 "bar").2.Stream demoObjects
        (List.replicate 5 (0, 0))).samples[2]? = some (x.1 + x.1, x.2 + x.2) := by
  have h := (Stream_output_is_sum (trackMixer.Add demoObjects 2 "bar").2 demoObjects
    (List.replicate 5 (0, 0)) (fun _ => track20) (by decide)
    (by
      intro e he
      have he2 : e = ("foo", 0) ∨ e = ("bar", 2) := by
        have hs : (trackMixer.Add demoObjects 2 "bar").2.streamers =
            [("foo", 0), ("bar", 2)] := by decide
        rw [hs] at he
        simpa using he
      rcases he2 with h | h <;> subst h
      · exact ⟨⟨0, rfl⟩, by decide⟩
      · exact ⟨⟨0, rfl⟩, by decide⟩)
    (by decide) (by decide)).2 "foo" "bar" 0 2 (by decide) rfl 2 (by decide)
  obtain ⟨x, hx, _, _, h4⟩ := h
  have h5 := h4 (fun y => Int.zero_add y)
  exact ⟨by decide, x, hx, h5.1, h5.2⟩

/-- C4, evaluated on the code: the participant `bad` exists next to `foo`, its
`Seek(0)` returns an error, and `Stream` still returns normally with `n = 5`; but
`getStreamers` hands both participants to the mix, so the output is the sum of
both (`foo` plus the samples `(100, 100)` of `bad`) and not the output of the mix
of `foo` alone.  The failure is recorded in `Err()`. -/
theorem getStreamers_keeps_failed_seeker :
    ((demoObjects 1).Seek 0).1 ≠ none ∧
    stuckMixer.lookup "bad" = some 1 ∧
    (stuckMixer.getStreamers demoObjects 0).1 = [0, 1] ∧
    (stuckMixer.Stream demoObjects (List.replicate 5 (0, 0))).n = 5 ∧
    (stuckMixer.Stream demoObjects (List.replicate 5 (0, 0))).samples =
      [(101, 99), (102, 98), (103, 97), (104, 96), (105, 95)] ∧
    (trackMixer.Stream demoObjects (List.replicate 5 (0, 0))).samples =
      [(1, -1), (2, -2), (3, -3), (4, -4), (5, -5)] ∧
    (stuckMixer.Stream demoObjects (List.replicate 5 (0, 0))).mixer.Err =
      some (Error.cannotSeekStreamer "bad" 0) := by
  decide

/-- C5: let `id` not be a participant.  On a mixer that is not initialised yet,
`Add(seeker, id)` succeeds, sets `Len()` to `seeker.Len()`, marks the mixer
initialised and stores the seeker under `id`.  On an initialised mixer `Add`
returns an error exactly when `seeker.Len()` differs from `Len()`; on that error
the whole mixer state is unchanged and `id` is still not a participant; on
success the seeker is stored under `id` and `Len()` is unchanged. -/
theorem Add_new_id (m : Synchronized) (objs : Objects α) (s : Nat) (id : String)
    (hid : m.hasId id = false) :
    (m.isInitialized = false →
      (m.Add objs s id).1 = none ∧ (m.Add objs s id).2.Len = (objs s).Len ∧
      (m.Add objs s id).2.isInitialized = true ∧ (m.Add objs s id).2.lookup id = some s) ∧
    (m.isInitialized = true →
      ((m.Add objs s id).1 ≠ none ↔ (objs s).Len ≠ m.Len) ∧
      ((m.Add objs s id).1 ≠ none →
        (m.Add objs s id).2 = m ∧ (m.Add objs s id).2.hasId id = false) ∧
      ((m.Add objs s id).1 = none →
        (m.Add objs s id).2.lookup id = some s ∧ (m.Add objs s id).2.Len = m.Len)) := by
  constructor
  · intro hi
    rw [Add_first m objs s id hid hi]
    exact ⟨rfl, rfl, rfl, find_append_single _ _ _ hid⟩
  · intro hi
    by_cases hl : m.length = (objs s).Len
    · rw [Add_matching m objs s id hid hi hl]
      refine ⟨?_, ?_, ?_⟩
      · simp [Synchronized.Len, hl]
      · intro h; exact absurd rfl h
      · intro _; exact ⟨find_append_single _ _ _ hid, rfl⟩
    · rw [Add_mismatch m objs s id hid hi hl]
      refine ⟨?_, ?_, ?_⟩
      · simp only [Synchronized.Len]
        constructor
        · intro _ h; exact hl h.symm
        · intro _; simp
      · intro _; exact ⟨rfl, hid⟩
      · intro h; simp at h

/-- Witness of C5: the first `Add` on `NewMixer()` fixes the length to 20, and
adding a seeker over 19 samples under the new id `bar` fails and changes
nothing. -/
theorem Add_new_id_witness :
    (NewMixer.Add demoObjects 0 "foo").2.Len = 20 ∧
    (trackMixer.Add demoObjects 3 "bar").2 = trackMixer :=
  ⟨by
    have h := ((Add_new_id NewMixer demoObjects 0 "foo" (by decide)).1 (by decide)).2.1
    rw [h]; decide,
   (((Add_new_id trackMixer demoObjects 3 "bar" (by decide)).2
      (by decide)).2.1 (by decide)).1⟩

/-- C6: when `id` is already a participant, `Add(seeker, id)` returns no error
and leaves the mixer state as it is, for every seeker, whatever its length: the
participant stored under `id` stays. -/
theorem Add_existing_id (m : Synchronized) (objs : Objects α) (s : Nat) (id : String)
    (hid : m.hasId id = true) :
    (m.Add objs s id).1 = none ∧ (m.Add objs s id).2 = m ∧
    (m.Add objs s id).2.lookup id = m.lookup id := by
  simp [Synchronized.Add, hid]

/-- Witness of C6: adding a seeker over 19 samples under the existing id `foo`
of the length-20 mixer. -/
theorem Add_existing_id_witness :
    trackMixer.hasId "foo" = true ∧ (demoObjects 3).Len ≠ trackMixer.Len ∧
    (trackMixer.Add demoObjects 3 "foo").1 = none ∧
    (trackMixer.Add demoObjects 3 "foo").2 = trackMixer :=
  ⟨by decide, by decide,
   (Add_existing_id trackMixer demoObjects 3 "foo" (by decide)).1,
   (Add_existing_id trackMixer demoObjects 3 "foo" (by decide)).2.1⟩

/-- C7: after `Remove(id)` the id is not a participant, every other id maps to
the seeker it mapped to before, and `Len()`, `Position()`, the initialised flag
and `Err()` are the same; hence on an initialised mixer a later `Add` of a seeker
of another length under a new id still fails.  When `id` was not a participant
the state is unchanged. -/
theorem Remove_frame (m : Synchronized) (id : String) :
    (m.Remove id).hasId id = false ∧
    (∀ id2, id2 ≠ id → (m.Remove id).lookup id2 = m.lookup id2) ∧
    (m.Remove id).Len = m.Len ∧ (m.Remove id).Position = m.Position ∧
    (m.Remove id).isInitialized = m.isInitialized ∧ (m.Remove id).Err = m.Err ∧
    (∀ (β : Type) (objs : Objects β) (s : Nat) (id2 : String),
      m.isInitialized = true → (objs s).Len ≠ m.Len →
      (m.Remove id).hasId id2 = false → ((m.Remove id).Add objs s id2).1 ≠ none) ∧
    (m.hasId id = false → m.Remove id = m) := by
  refine ⟨?_, ?_, rfl, rfl, rfl, rfl, ?_, ?_⟩
  · simp [Synchronized.Remove, Synchronized.hasId]
  · intro id2 h
    simp only [Synchronized.Remove, Synchronized.lookup]
    rw [find_filter_ne _ _ _ h]
  · intro β objs s id2 hi hl hid
    rw [Add_mismatch _ objs s id2 hid hi (fun h => hl h.symm)]
    simp
  · intro h
    simp only [Synchronized.hasId, List.any_eq_false] at h
    simp only [Synchronized.Remove]
    have : m.streamers.filter (fun e => !(e.1 == id)) = m.streamers := by
      rw [List.filter_eq_self]
      intro a ha
      simpa using h a ha
    rw [this]

/-- Witness of C7: after removing `foo`, the only participant and the one that
fixed the length 20, adding a seeker over 19 samples fails; removing the absent
id `bar` changes nothing. -/
theorem Remove_frame_witness :
    (((trackMixer.Remove "foo").Add demoObjects 3 "foo").1 ≠ none) ∧
    trackMixer.Remove "bar" = trackMixer :=
  ⟨(Remove_frame trackMixer "foo").2.2.2.2.2.2.1 Int demoObjects 3 "foo"
      (by decide) (by decide) (by decide),
   (Remove_frame trackMixer "bar").2.2.2.2.2.2.2 (by decide)⟩

/-- C8: when `Position() ≥ Len()`, `Stream` returns `n = 0` and `ok = false`,
leaves the sample slice as it was, leaves every seeker object as it was (no
participant is repositioned) and leaves the mixer as it was, so `Position()` is
unchanged. -/
theorem Stream_at_end_is_noop [Add α] [Zero α] (m : Synchronized) (objs : Objects α)
    (samples : List (Sample α)) (h : m.Position ≥ m.Len) :
    (m.Stream objs samples).n = 0 ∧ (m.Stream objs samples).ok = false ∧
    (m.Stream objs samples).samples = samples ∧ (m.Stream objs samples).mixer = m ∧
    (m.Stream objs samples).objects = objs ∧
    (m.Stream objs samples).mixer.Position = m.Position := by
  rw [Stream_of_drained m objs samples h]
  exact ⟨rfl, rfl, rfl, rfl, rfl, rfl⟩

/-- Witness of C8: the length-20 mixer after `Seek(20)` and a buffer of size 10
that holds the samples `(7, 7)`. -/
theorem Stream_at_end_is_noop_witness :
    (trackMixer.Seek 20).2.Position ≥ (trackMixer.Seek 20).2.Len ∧
    ((trackMixer.Seek 20).2.Stream demoObjects (List.replicate 10 (7, 7))).n = 0 ∧
    ((trackMixer.Seek 20).2.Stream demoObjects (List.replicate 10 (7, 7))).ok = false ∧
    ((trackMixer.Seek 20).2.Stream demoObjects (List.replicate 10 (7, 7))).samples =
      List.replicate 10 (7, 7) :=
  ⟨by decide,
   (Stream_at_end_is_noop (trackMixer.Seek 20).2 demoObjects (List.replicate 10 (7, 7))
     (by decide)).1,
   (Stream_at_end_is_noop (trackMixer.Seek 20).2 demoObjects (List.replicate 10 (7, 7))
     (by decide)).2.1,
   (Stream_at_end_is_noop (trackMixer.Seek 20).2 demoObjects (List.replicate 10 (7, 7))
     (by decide)).2.2.1⟩

/-- C9 as stated fails: the mixer reached by `NewMixer`, `Add` of a length-20
participant `foo` and `Remove("foo")` has its cursor (0) below `Len()` (20), and
`Stream` on a buffer of size 10 returns `n = 0` and `ok = false` although the
cursor afterwards (0) is not `Len()`; the same happens on the mixer that still
holds `foo` when the buffer is empty. -/
theorem empty_mixer_reports_finished_early :
    (trackMixer.Remove "foo").Position < (trackMixer.Remove "foo").Len ∧
    ¬ (((trackMixer.Remove "foo").Stream demoObjects (List.replicate 10 (0, 0))).ok = false ↔
        ((trackMixer.Remove "foo").Stream demoObjects
          (List.replicate 10 (0, 0))).mixer.Position = (trackMixer.Remove "foo").Len) ∧
    trackMixer.Position < trackMixer.Len ∧
    ¬ ((trackMixer.Stream demoObjects []).ok = false ↔
        (trackMixer.Stream demoObjects []).mixer.Position = trackMixer.Len) := by
  decide

/-- C9 amended: with the cursor below `Len()`, a call after which the cursor
equals `Len()` returns `ok = false`; when the mixer has at least one participant,
all participants are buffer-backed seekers of the session length (one seeker may
be stored under several ids), the cursor is not negative and the buffer is not
empty, `ok = false` holds exactly when the cursor after the call equals `Len()`;
when the mixer has no participant or the buffer is empty, `Stream` returns
`n = 0` and `ok = false` and the cursor stays where it was, below `Len()`. -/
theorem Stream_finished_iff_end [Add α] [Zero α] (m : Synchronized) (objs : Objects α)
    (samples : List (Sample α)) (hp : m.Position < m.Len) :
    ((m.Stream objs samples).mixer.Position = m.Len → (m.Stream objs samples).ok = false) ∧
    (m.streamers ≠ [] →
      (∀ e ∈ m.streamers, ∃ bs : bufferStreamer α,
        objs e.2 = bs.toStreamSeeker ∧ (bs.data.length : Int) = m.Len) →
      0 ≤ m.Position → 0 < samples.length →
      ((m.Stream objs samples).ok = false ↔ (m.Stream objs samples).mixer.Position = m.Len)) ∧
    (m.streamers = [] ∨ samples = [] →
      (m.Stream objs samples).n = 0 ∧ (m.Stream objs samples).ok = false ∧
      (m.Stream objs samples).mixer.Position = m.Position) := by
  simp only [Synchronized.Len, Synchronized.Position] at *
  refine ⟨Stream_ok_false_of_end m objs samples, ?_, ?_⟩
  · intro hne hbuf hp0 hk
    obtain ⟨_, _, h3, h4, _⟩ := Stream_buffers m objs samples hbuf hp0 hp
    rw [h4 hne hk]
    rw [h3]
  · intro h
    rcases h with h | h
    · obtain ⟨h1, h2, h3, _⟩ := Stream_no_participants m objs samples h
      exact ⟨h1, h2, by rw [h3]⟩
    · subst h
      exact Stream_empty_buffer m objs hp

/-- Witness of C9 amended: the terminal short read of the length-20 mixer
(`Seek(15)`, buffer of size 10) ends at `Len()` and returns `ok = false`. -/
theorem Stream_finished_iff_end_witness :
    (trackMixer.Seek 15).2.Position < (trackMixer.Seek 15).2.Len ∧
    ((trackMixer.Seek 15).2.Stream demoObjects (List.replicate 10 (0, 0))).mixer.Position =
      (trackMixer.Seek 15).2.Len ∧
    ((trackMixer.Seek 15).2.Stream demoObjects (List.replicate 10 (0, 0))).ok = false :=
  ⟨by decide, by decide,
   (Stream_finished_iff_end (trackMixer.Seek 15).2 demoObjects (List.replicate 10 (0, 0))
     (by decide)).1 (by decide)⟩

/-- C10 as stated fails: the call on the drained mixer (`Seek(20)`) and the
terminal short read (`Seek(15)`, buffer of size 10, `n = 5`) of the length-20
mixer return the same boolean, `false`; they do not differ. -/
theorem drained_flag_equals_terminal_flag :
    ((trackMixer.Seek 15).2.Stream demoObjects (List.replicate 10 (0, 0))).n = 5 ∧
    ((trackMixer.Seek 15).2.Stream demoObjects (List.replicate 10 (0, 0))).ok = false ∧
    ((trackMixer.Seek 20).2.Stream demoObjects (List.replicate 10 (0, 0))).n = 0 ∧
    ((trackMixer.Seek 20).2.Stream demoObjects (List.replicate 10 (0, 0))).ok = false ∧
    ¬ (((trackMixer.Seek 20).2.Stream demoObjects (List.replicate 10 (0, 0))).ok ≠
        ((trackMixer.Seek 15).2.Stream demoObjects (List.replicate 10 (0, 0))).ok) := by
  decide

/-- C10 amended: on a mixer with `Position() = Len()` every `Stream` call returns
`n = 0` and `ok = false`, and that is the boolean which the terminal short read
(one participant of length 20, `Seek(15)`, buffer of size 10) returns as well. -/
theorem Stream_at_end_flag_is_terminal_flag [Add α] [Zero α] (m : Synchronized)
    (objs : Objects α) (samples : List (Sample α)) (h : m.Position = m.Len) :
    (m.Stream objs samples).n = 0 ∧ (m.Stream objs samples).ok = false ∧
    (m.Stream objs samples).ok =
      ((trackMixer.Seek 15).2.Stream demoObjects (List.replicate 10 (0, 0))).ok := by
  simp only [Synchronized.Len, Synchronized.Position] at h
  have ht : ((trackMixer.Seek 15).2.Stream demoObjects (List.replicate 10 (0, 0))).ok = false := by
    decide
  rw [Stream_of_drained m objs samples (by omega), ht]
  exact ⟨rfl, rfl, rfl⟩

/-- Witness of C10 amended: the length-20 mixer after `Seek(20)`. -/
theorem Stream_at_end_flag_is_terminal_flag_witness :
    (trackMixer.Seek 20).2.Position = (trackMixer.Seek 20).2.Len ∧
    ((trackMixer.Seek 20).2.Stream demoObjects (List.replicate 10 (0, 0))).n = 0 ∧
    ((trackMixer.Seek 20).2.Stream demoObjects (List.replicate 10 (0, 0))).ok = false :=
  ⟨by decide,
   (Stream_at_end_flag_is_terminal_flag (trackMixer.Seek 20).2 demoObjects
     (List.replicate 10 (0, 0)) (by decide)).1,
   (Stream_at_end_flag_is_terminal_flag (trackMixer.Seek 20).2 demoObjects
     (List.replicate 10 (0, 0)) (by decide)).2.1⟩

end streamer
/-! ## Lemmas about the buffer cache -/

namespace buffers

open beep reader Buffers

variable {α : Type}

theorem find_append_new {β : Type} (l : List (String × β)) (key : String) (b : β)
    (h : l.any (fun e => e.1 == key) = false) :
    ((l ++ [(key, b)]).find? (fun e => e.1 == key)).map Prod.snd = some b := by
  induction l with
  | nil => simp
  | cons x xs ih =>
    simp only [List.any_cons, Bool.or_eq_false_iff] at h
    rw [List.cons_append, List.find?_cons, h.1]
    exact ih h.2

theorem find_filter_other {β : Type} (l : List (String × β)) (key other : String)
    (h : other ≠ key) :
    (l.filter (fun e => !(e.1 == key))).find? (fun e => e.1 == other) =
      l.find? (fun e => e.1 == other) := by
  induction l with
  | nil => rfl
  | cons x xs ih =>
    by_cases hx : x.1 = key
    · have h1 : (x.1 == key) = true := by simp [hx]
      have h2 : (x.1 == other) = false := by
        simp only [beq_eq_false_iff_ne, ne_eq]; rw [hx]; exact fun e => h e.symm
      rw [List.filter_cons, List.find?_cons]
      simp only [h1, h2, Bool.not_true]
      exact ih
    · have h1 : (x.1 == key) = false := by simp [hx]
      rw [List.filter_cons]
      simp only [h1, Bool.not_false, if_true]
      rw [List.find?_cons, List.find?_cons, ih]

theorem find_none_iff_any_false {β : Type} (l : List (String × β)) (key : String) :
    (l.find? (fun e => e.1 == key)).map Prod.snd = none ↔
      l.any (fun e => e.1 == key) = false := by
  induction l with
  | nil => simp
  | cons x xs ih =>
    by_cases hx : (x.1 == key) = true
    · simp [List.find?_cons, hx]
    · have hx' : (x.1 == key) = false := by simpa using hx
      rw [List.find?_cons, hx', List.any_cons, hx', Bool.false_or]
      exact ih

theorem lookup_none_iff (h : Buffers α) (path : String) :
    h.lookup path = none ↔ h.hasPath path = false :=
  find_none_iff_any_false h.buffers path

theorem delete_all_keys {β : Type} (ks : List String) :
    ∀ l : List (String × β), (∀ e ∈ l, e.1 ∈ ks) →
      ks.foldl (fun bs path => bs.filter (fun e => !(e.1 == path))) l = [] := by
  induction ks with
  | nil =>
    intro l hl
    cases l with
    | nil => rfl
    | cons e es => exact absurd (hl e (List.mem_cons_self _ _)) (List.not_mem_nil _)
  | cons k ks ih =>
    intro l hl
    rw [List.foldl_cons]
    apply ih
    intro e he
    rw [List.mem_filter] at he
    have hk : e.1 ≠ k := by simpa using he.2
    have := hl e he.1
    rw [List.mem_cons] at this
    rcases this with h | h
    · exact absurd h hk
    · exact h

theorem ReleaseAll_buffers (h : Buffers α) : h.ReleaseAll.buffers = [] := by
  simp only [Buffers.ReleaseAll]
  apply delete_all_keys
  intro e he
  exact List.mem_map_of_mem Prod.fst he

theorem Load_cached (c : Codec α) (h : Buffers α) (path : String)
    (hc : h.hasPath path = true) : h.Load c path = (none, h) := by
  simp [Buffers.Load, hc]

theorem Load_read_error (c : Codec α) (h : Buffers α) (path : String) (err : Error)
    (hc : h.hasPath path = false) (hr : h.reader.GetReadCloser path = .error err) :
    h.Load c path = (some err, h) := by
  simp [Buffers.Load, hc, hr]

theorem Load_decode_error (c : Codec α) (h : Buffers α) (path : String) (file : ReadCloser)
    (err : Error) (hc : h.hasPath path = false) (hr : h.reader.GetReadCloser path = .ok file)
    (hd : c.Decode file = .error err) :
    h.Load c path = (some err, h) := by
  simp [Buffers.Load, hc, hr, hd]

/-- A `Load` that gets past the decoder stores a buffer of the cache format
(the format of the file when the cache was not initialised), marks the cache
initialised, and returns what `Close` returns. -/
theorem Load_stored (c : Codec α) (h : Buffers α) (path : String) (file : ReadCloser)
    (d : Decoded α) (hc : h.hasPath path = false)
    (hr : h.reader.GetReadCloser path = .ok file) (hd : c.Decode file = .ok d) :
    ∃ b : Buffer α,
      b.f = (if h.isInitialised then h.format else d.format) ∧
      h.Load c path =
        (d.close,
          { buffers := h.buffers ++ [(path, b)],
            format := if h.isInitialised then h.format else d.format,
            reader := h.reader,
            isInitialised := true }) := by
  cases hi : h.isInitialised
  · by_cases hs : d.format.SampleRate = d.format.SampleRate
    · refine ⟨(NewBuffer d.format).Append d.samples, rfl, ?_⟩
      cases hcl : d.close <;> simp [Buffers.Load, hc, hr, hd, hi, hcl]
    · exact absurd rfl hs
  · by_cases hs : h.format.SampleRate = d.format.SampleRate
    · refine ⟨(NewBuffer h.format).Append d.samples, rfl, ?_⟩
      cases hcl : d.close <;> cases h <;> simp_all [Buffers.Load]
    · refine ⟨(NewBuffer h.format).Append
        (c.Resample 4 d.format.SampleRate h.format.SampleRate d.samples), rfl, ?_⟩
      cases hcl : d.close <;> cases h <;> simp_all [Buffers.Load]

/-- The three ways a `Load` of a path that is not cached can go. -/
theorem Load_cases (c : Codec α) (h : Buffers α) (path : String)
    (hc : h.hasPath path = false) :
    (∃ err, h.reader.GetReadCloser path = .error err ∧ h.Load c path = (some err, h)) ∨
    (∃ file err, h.reader.GetReadCloser path = .ok file ∧ c.Decode file = .error err ∧
      h.Load c path = (some err, h)) ∨
    (∃ file d b, h.reader.GetReadCloser path = .ok file ∧ c.Decode file = .ok d ∧
      b.f = (if h.isInitialised then h.format else d.format) ∧
      h.Load c path =
        (d.close,
          { buffers := h.buffers ++ [(path, b)],
            format := if h.isInitialised then h.format else d.format,
            reader := h.reader,
            isInitialised := true })) := by
  cases hr : h.reader.GetReadCloser path with
  | error err => exact Or.inl ⟨err, rfl, Load_read_error c h path err hc hr⟩
  | ok file =>
    cases hd : c.Decode file with
    | error err => exact Or.inr (Or.inl ⟨file, err, rfl, hd, Load_decode_error c h path file err hc hr hd⟩)
    | ok d =>
      obtain ⟨b, hb, hl⟩ := Load_stored c h path file d hc hr hd
      exact Or.inr (Or.inr ⟨file, d, b, rfl, hd, hb, hl⟩)

end buffers

namespace buffers

open beep reader Buffers

variable {α : Type}

theorem Load_success_hasPath (c : Codec α) (h : Buffers α) (path : String)
    (hs : (h.Load c path).1 = none) : (h.Load c path).2.hasPath path = true := by
  by_cases hc : h.hasPath path = true
  · rw [Load_cached c h path hc]; exact hc
  · have hc' : h.hasPath path = false := by simpa using hc
    rcases Load_cases c h path hc' with ⟨err, _, hl⟩ | ⟨file, err, _, _, hl⟩ | ⟨file, d, b, _, _, _, hl⟩
    · rw [hl] at hs; simp at hs
    · rw [hl] at hs; simp at hs
    · rw [hl]; simp [Buffers.hasPath]

theorem Load_init (c : Codec α) (h : Buffers α) (path : String)
    (hi : h.isInitialised = true) :
    (h.Load c path).2.isInitialised = true ∧ (h.Load c path).2.format = h.format := by
  by_cases hc : h.hasPath path = true
  · rw [Load_cached c h path hc]; exact ⟨hi, rfl⟩
  · have hc' : h.hasPath path = false := by simpa using hc
    rcases Load_cases c h path hc' with ⟨err, _, hl⟩ | ⟨file, err, _, _, hl⟩ | ⟨file, d, b, _, _, _, hl⟩
    · rw [hl]; exact ⟨hi, rfl⟩
    · rw [hl]; exact ⟨hi, rfl⟩
    · rw [hl]; simp [hi]

theorem cacheStep_init (c : Codec α) (h : Buffers α) (op : CacheOp)
    (hi : h.isInitialised = true) :
    (cacheStep c h op).isInitialised = true ∧ (cacheStep c h op).format = h.format := by
  cases op with
  | load path => exact Load_init c h path hi
  | release path => exact ⟨hi, rfl⟩
  | releaseAll => exact ⟨hi, rfl⟩

theorem cacheRun_init (c : Codec α) (ops : List CacheOp) :
    ∀ h : Buffers α, h.isInitialised = true →
      (cacheRun c h ops).isInitialised = true ∧ (cacheRun c h ops).format = h.format := by
  induction ops with
  | nil => intro h hi; exact ⟨hi, rfl⟩
  | cons op ops ih =>
    intro h hi
    obtain ⟨h1, h2⟩ := cacheStep_init c h op hi
    obtain ⟨h3, h4⟩ := ih (cacheStep c h op) h1
    exact ⟨h3, h4.trans h2⟩

/-- The invariant of the cache: every stored buffer has the format of the cache,
and a cache that holds a buffer is initialised. -/
theorem Load_invariant (c : Codec α) (h : Buffers α) (path : String)
    (hf : ∀ e ∈ h.buffers, e.2.f = h.format)
    (hn : h.buffers ≠ [] → h.isInitialised = true) :
    (∀ e ∈ (h.Load c path).2.buffers, e.2.f = (h.Load c path).2.format) ∧
    ((h.Load c path).2.buffers ≠ [] → (h.Load c path).2.isInitialised = true) := by
  by_cases hc : h.hasPath path = true
  · rw [Load_cached c h path hc]; exact ⟨hf, hn⟩
  · have hc' : h.hasPath path = false := by simpa using hc
    rcases Load_cases c h path hc' with ⟨err, _, hl⟩ | ⟨file, err, _, _, hl⟩ | ⟨file, d, b, _, _, hb, hl⟩
    · rw [hl]; exact ⟨hf, hn⟩
    · rw [hl]; exact ⟨hf, hn⟩
    · rw [hl]
      refine ⟨?_, fun _ => rfl⟩
      intro e he
      simp only [List.mem_append, List.mem_singleton] at he
      rcases he with he | he
      · have hi : h.isInitialised = true := hn (List.ne_nil_of_mem he)
        simp only [hi, if_true]
        exact hf e he
      · rw [he]; exact hb

theorem cacheStep_invariant (c : Codec α) (h : Buffers α) (op : CacheOp)
    (hf : ∀ e ∈ h.buffers, e.2.f = h.format)
    (hn : h.buffers ≠ [] → h.isInitialised = true) :
    (∀ e ∈ (cacheStep c h op).buffers, e.2.f = (cacheStep c h op).format) ∧
    ((cacheStep c h op).buffers ≠ [] → (cacheStep c h op).isInitialised = true) := by
  cases op with
  | load path => exact Load_invariant c h path hf hn
  | release path =>
    refine ⟨?_, ?_⟩
    · intro e he
      exact hf e (List.mem_filter.mp he).1
    · intro hne
      apply hn
      intro hnil
      apply hne
      simp [cacheStep, Buffers.Release, hnil]
  | releaseAll =>
    have hb : (cacheStep c h CacheOp.releaseAll).buffers = [] := ReleaseAll_buffers h
    refine ⟨?_, ?_⟩
    · intro e he; rw [hb] at he; exact absurd he (List.not_mem_nil _)
    · intro hne; exact absurd hb hne

theorem cacheRun_invariant (c : Codec α) (ops : List CacheOp) :
    ∀ h : Buffers α, (∀ e ∈ h.buffers, e.2.f = h.format) →
      (h.buffers ≠ [] → h.isInitialised = true) →
      (∀ e ∈ (cacheRun c h ops).buffers, e.2.f = (cacheRun c h ops).format) ∧
      ((cacheRun c h ops).buffers ≠ [] → (cacheRun c h ops).isInitialised = true) := by
  induction ops with
  | nil => intro h hf hn; exact ⟨hf, hn⟩
  | cons op ops ih =>
    intro h hf hn
    obtain ⟨h1, h2⟩ := cacheStep_invariant c h op hf hn
    exact ih (cacheStep c h op) h1 h2

/-- When no decoded stream fails on `Close`, a `Load` that returns an error
leaves the cache as it was. -/
theorem Load_error_unchanged (c : Codec α) (h : Buffers α) (path : String)
    (hclose : ∀ file d, c.Decode file = .ok d → d.close = none)
    (he : (h.Load c path).1 ≠ none) : (h.Load c path).2 = h := by
  by_cases hc : h.hasPath path = true
  · rw [Load_cached c h path hc]
  · have hc' : h.hasPath path = false := by simpa using hc
    rcases Load_cases c h path hc' with ⟨err, _, hl⟩ | ⟨file, err, _, _, hl⟩ | ⟨file, d, b, _, hd, _, hl⟩
    · rw [hl]
    · rw [hl]
    · rw [hl, hclose file d hd] at he
      exact absurd rfl he

/-- When no decoded stream fails on `Close`, a sequence of calls in which no
`Load` succeeds leaves an uninitialised cache uninitialised. -/
theorem cacheRun_uninitialised (c : Codec α)
    (hclose : ∀ file d, c.Decode file = .ok d → d.close = none) (ops : List CacheOp) :
    ∀ h : Buffers α, h.isInitialised = false → noLoadSucceeds c h ops = true →
      (cacheRun c h ops).isInitialised = false := by
  induction ops with
  | nil => intro h hi _; exact hi
  | cons op ops ih =>
    intro h hi hno
    cases op with
    | load path =>
      simp only [noLoadSucceeds, Bool.and_eq_true] at hno
      have hu := Load_error_unchanged c h path hclose (by
        intro hnone; rw [hnone] at hno; simp at hno)
      exact ih (h.Load c path).2 (by rw [hu]; exact hi) hno.2
    | release path => exact ih (h.Release path) hi hno
    | releaseAll => exact ih h.ReleaseAll hi hno

end buffers

/-! ## The claims about the buffer cache -/

namespace buffers

open beep reader Buffers

variable {α : Type}

/-- C11, evaluated on the code: `Load("c.mp3")` on the empty cache reads and
decodes the file, stores the buffer, adopts the format, and then returns the
error of `Close`.  The call returns an error, yet the mapping, the format and
the initialised flag are not what they were before the call. -/
theorem Load_close_error_changes_cache :
    (demoCache.Load demoCodec "c.mp3").1 = some (Error.other "close failed") ∧
    demoCache.hasPath "c.mp3" = false ∧
    (demoCache.Load demoCodec "c.mp3").2.hasPath "c.mp3" = true ∧
    demoCache.isInitialised = false ∧
    (demoCache.Load demoCodec "c.mp3").2.isInitialised = true ∧
    demoCache.format = ⟨0, 0, 0⟩ ∧
    (demoCache.Load demoCodec "c.mp3").2.format = ⟨44100, 2, 2⟩ := by
  decide

/-- C12: when `path` is cached, `Load(path)` returns no error and leaves the
cache as it is, whatever the reader and the decoder are (so neither is
consulted); and for every cache, a second `Load(path)` leaves the state that the
first one left. -/
theorem Load_idempotent (c : Codec α) (h : Buffers α) (path : String) :
    (h.hasPath path = true →
      ∀ (c2 : Codec α) (r : IReader),
        h.Load c2 path = (none, h) ∧
        ({ h with reader := r } : Buffers α).Load c2 path = (none, { h with reader := r })) ∧
    ((h.Load c path).2.Load c path).2 = (h.Load c path).2 := by
  refine ⟨?_, ?_⟩
  · intro hc c2 r
    exact ⟨Load_cached c2 h path hc, Load_cached c2 _ path hc⟩
  · by_cases hc : h.hasPath path = true
    · rw [Load_cached c h path hc, Load_cached c h path hc]
    · have hc' : h.hasPath path = false := by simpa using hc
      rcases Load_cases c h path hc' with ⟨err, _, hl⟩ | ⟨file, err, _, _, hl⟩ |
        ⟨file, d, b, _, _, _, hl⟩
      · rw [hl]; simp only; rw [hl]
      · rw [hl]; simp only; rw [hl]
      · rw [hl]
        simp only
        rw [Load_cached]
        simp [Buffers.hasPath]

/-- Witness of C12: after `Load("a.mp3")` a second `Load("a.mp3")`, even with a
reader that knows no file, returns no error and changes nothing. -/
theorem Load_idempotent_witness :
    (demoCache.Load demoCodec "a.mp3").2.hasPath "a.mp3" = true ∧
    ({ (demoCache.Load demoCodec "a.mp3").2 with
        reader := FileReader (fun _ => .error (Error.other "no such file")) } :
      Buffers Int).Load demoCodec "a.mp3" =
      (none, { (demoCache.Load demoCodec "a.mp3").2 with
        reader := FileReader (fun _ => .error (Error.other "no such file")) }) :=
  ⟨by decide,
   ((Load_idempotent demoCodec (demoCache.Load demoCodec "a.mp3").2 "a.mp3").1 (by decide)
      demoCodec (FileReader (fun _ => .error (Error.other "no such file")))).2⟩

/-- C13: `GetStreamSeeker(key)` returns an error exactly when `key` is not in
the mapping; otherwise it returns a seeker at position 0 whose `Len()` is the
length of the buffer cached under `key`; it never changes the cache; and after a
`Load(key)` that returned no error, `GetStreamSeeker(key)` returns no error. -/
theorem GetStreamSeeker_error_iff_unloaded (h : Buffers α) (key : String) :
    ((h.GetStreamSeeker key).err ≠ none ↔ h.hasPath key = false) ∧
    ((h.GetStreamSeeker key).err = none →
      ∃ (b : Buffer α) (s : StreamSeeker α),
        h.lookup key = some b ∧ (h.GetStreamSeeker key).seeker = some s ∧
        s.Position = 0 ∧ s.Len = (b.Len : Int)) ∧
    (h.GetStreamSeeker key).cache = h ∧
    (∀ c : Codec α, (h.Load c key).1 = none →
      ((h.Load c key).2.GetStreamSeeker key).err = none) := by
  have key_fact : ∀ g : Buffers α,
      ((g.GetStreamSeeker key).err ≠ none ↔ g.hasPath key = false) := by
    intro g
    rw [← lookup_none_iff]
    unfold Buffers.GetStreamSeeker
    cases g.lookup key <;> simp
  refine ⟨key_fact h, ?_, ?_, ?_⟩
  · unfold Buffers.GetStreamSeeker
    cases hl : h.lookup key with
    | none => simp
    | some b =>
      intro _
      refine ⟨b, Buffer.Streamer b.data 0 b.Len, rfl, rfl, rfl, ?_⟩
      simp [Buffer.Streamer, StreamSeeker.Len, bufferStreamer.toStreamSeeker,
        bufferStreamer.Len, Buffer.Len]
  · unfold Buffers.GetStreamSeeker
    cases h.lookup key <;> rfl
  · intro c hs
    have hp := Load_success_hasPath c h key hs
    by_contra hne
    have := (key_fact (h.Load c key).2).mp hne
    rw [hp] at this
    exact absurd this (by decide)

/-- Witness of C13: on the empty cache `GetStreamSeeker("a.mp3")` fails; after
`Load("a.mp3")` it returns a seeker of length 20 at position 0. -/
theorem GetStreamSeeker_error_iff_unloaded_witness :
    (demoCache.GetStreamSeeker "a.mp3").err ≠ none ∧
    ((demoCache.Load demoCodec "a.mp3").2.GetStreamSeeker "a.mp3").err = none ∧
    (((demoCache.Load demoCodec "a.mp3").2.GetStreamSeeker "a.mp3").seeker.map
      (fun s => (s.Position, s.Len))) = some (0, 20) :=
  ⟨(GetStreamSeeker_error_iff_unloaded demoCache "a.mp3").1.mpr (by decide),
   (GetStreamSeeker_error_iff_unloaded demoCache "a.mp3").2.2.2 demoCodec (by decide),
   by decide⟩

/-- C14, evaluated on the code: `GetFormat` fails on the freshly created cache;
but after the single call `Load("c.mp3")`, which returns an error (the error of
`Close`), `GetFormat` returns the format 44100 Hz and no error, although no
`Load` call has returned success. -/
theorem GetFormat_after_failed_Load :
    (demoCache.GetFormat).err = some Error.notInitialised ∧
    noLoadSucceeds demoCodec demoCache [CacheOp.load "c.mp3"] = true ∧
    ((cacheRun demoCodec demoCache [CacheOp.load "c.mp3"]).GetFormat).err = none ∧
    ((cacheRun demoCodec demoCache [CacheOp.load "c.mp3"]).GetFormat).format = ⟨44100, 2, 2⟩ := by
  decide

end buffers

namespace buffers

open beep reader Buffers

variable {α : Type}

/-- C15: once the cache is initialised, after every sequence of `Load`,
`Release` and `ReleaseAll` calls, with any decoder and any files, `GetFormat`
succeeds and returns the format the cache had; `ReleaseAll` alone does not reset
it.  And the `Load` that decodes a file on an uninitialised cache adopts the
format of that file. -/
theorem format_fixed_once_adopted (c : Codec α) (h : Buffers α) (ops : List CacheOp)
    (hi : h.isInitialised = true) :
    ((cacheRun c h ops).GetFormat).err = none ∧
    ((cacheRun c h ops).GetFormat).format = h.format ∧
    (h.ReleaseAll.GetFormat).err = none ∧
    (h.ReleaseAll.GetFormat).format = h.format ∧
    (∀ (g : Buffers α) (path : String) (file : ReadCloser) (d : Decoded α),
      g.isInitialised = false → g.hasPath path = false →
      g.reader.GetReadCloser path = .ok file → c.Decode file = .ok d →
      (g.Load c path).2.isInitialised = true ∧ (g.Load c path).2.format = d.format) := by
  obtain ⟨h1, h2⟩ := cacheRun_init c ops h hi
  refine ⟨?_, ?_, ?_, ?_, ?_⟩
  · simp [Buffers.GetFormat, h1]
  · simp [Buffers.GetFormat, h1, h2]
  · simp [Buffers.GetFormat, Buffers.ReleaseAll, hi]
  · simp [Buffers.GetFormat, Buffers.ReleaseAll, hi]
  · intro g path file d hg hc hr hd
    obtain ⟨b, _, hl⟩ := Load_stored c g path file d hc hr hd
    rw [hl]
    simp [hg]

/-- Witness of C15: the cache adopts 44100 Hz from `a.mp3`; after loading
`b.mp3` (48000 Hz), releasing `a.mp3` and releasing everything, `GetFormat`
still returns 44100 Hz. -/
theorem format_fixed_once_adopted_witness :
    (demoCache.Load demoCodec "a.mp3").2.format = ⟨44100, 2, 2⟩ ∧
    ((cacheRun demoCodec (demoCache.Load demoCodec "a.mp3").2
      [CacheOp.load "b.mp3", CacheOp.release "a.mp3", CacheOp.releaseAll]).GetFormat).format =
      (demoCache.Load demoCodec "a.mp3").2.format ∧
    ((cacheRun demoCodec (demoCache.Load demoCodec "a.mp3").2
      [CacheOp.load "b.mp3", CacheOp.release "a.mp3", CacheOp.releaseAll]).GetFormat).err = none :=
  ⟨by decide,
   (format_fixed_once_adopted demoCodec (demoCache.Load demoCodec "a.mp3").2
      [CacheOp.load "b.mp3", CacheOp.release "a.mp3", CacheOp.releaseAll] (by decide)).2.1,
   (format_fixed_once_adopted demoCodec (demoCache.Load demoCodec "a.mp3").2
      [CacheOp.load "b.mp3", CacheOp.release "a.mp3", CacheOp.releaseAll] (by decide)).1⟩

/-- C16: `Release(key)` (which returns nothing, so it cannot fail) leaves a
mapping without `key` in which every other key has the buffer it had, keeps the
format, the flag and the reader, and changes nothing when `key` was absent;
`ReleaseAll` leaves the empty mapping, so `GetStreamSeeker` fails for every key
afterwards. -/
theorem Release_removes_only_key (h : Buffers α) (key : String) :
    (h.Release key).hasPath key = false ∧
    (∀ other, other ≠ key → (h.Release key).lookup other = h.lookup other) ∧
    (h.Release key).format = h.format ∧
    (h.Release key).isInitialised = h.isInitialised ∧
    (h.hasPath key = false → h.Release key = h) ∧
    h.ReleaseAll.buffers = [] ∧
    (∀ k, (h.ReleaseAll.GetStreamSeeker k).err ≠ none) := by
  refine ⟨?_, ?_, rfl, rfl, ?_, ReleaseAll_buffers h, ?_⟩
  · simp [Buffers.Release, Buffers.hasPath]
  · intro other ho
    simp only [Buffers.Release, Buffers.lookup]
    rw [find_filter_other _ _ _ ho]
  · intro hc
    simp only [Buffers.hasPath, List.any_eq_false] at hc
    simp only [Buffers.Release]
    have : h.buffers.filter (fun e => !(e.1 == key)) = h.buffers := by
      rw [List.filter_eq_self]
      intro a ha
      simpa using hc a ha
    rw [this]
  · intro k
    have hl : h.ReleaseAll.lookup k = none := by
      simp [Buffers.lookup, ReleaseAll_buffers h]
    simp [Buffers.GetStreamSeeker, hl]

/-- Witness of C16: with `a.mp3` and `b.mp3` loaded, releasing `a.mp3` keeps the
buffer of `b.mp3`, and releasing the absent `zzz` changes nothing. -/
theorem Release_removes_only_key_witness :
    ((cacheRun demoCodec demoCache [CacheOp.load "a.mp3", CacheOp.load "b.mp3"]).Release
        "a.mp3").lookup "b.mp3" =
      (cacheRun demoCodec demoCache [CacheOp.load "a.mp3", CacheOp.load "b.mp3"]).lookup "b.mp3" ∧
    (cacheRun demoCodec demoCache [CacheOp.load "a.mp3", CacheOp.load "b.mp3"]).Release "zzz" =
      cacheRun demoCodec demoCache [CacheOp.load "a.mp3", CacheOp.load "b.mp3"] :=
  ⟨(Release_removes_only_key
      (cacheRun demoCodec demoCache [CacheOp.load "a.mp3", CacheOp.load "b.mp3"]) "a.mp3").2.1
      "b.mp3" (by decide),
   (Release_removes_only_key
      (cacheRun demoCodec demoCache [CacheOp.load "a.mp3", CacheOp.load "b.mp3"]) "zzz").2.2.2.2.1
      (by decide)⟩

/-- C19: in the cache reached from `New` by any sequence of `Load`, `Release`
and `ReleaseAll` calls, with any reader and decoder, every stored buffer has the
format of the cache, a cache that holds a buffer is initialised, and `GetFormat`
then returns that format. -/
theorem cache_buffers_share_format (c : Codec α)
    (readFile : String → Except Error (List Nat)) (r : Option IReader) (ops : List CacheOp) :
    (∀ e ∈ (cacheRun c (New α readFile r) ops).buffers,
      e.2.f = (cacheRun c (New α readFile r) ops).format) ∧
    ((cacheRun c (New α readFile r) ops).buffers ≠ [] →
      (cacheRun c (New α readFile r) ops).isInitialised = true ∧
      ((cacheRun c (New α readFile r) ops).GetFormat).err = none ∧
      ((cacheRun c (New α readFile r) ops).GetFormat).format =
        (cacheRun c (New α readFile r) ops).format) := by
  obtain ⟨h1, h2⟩ := cacheRun_invariant c ops (New α readFile r)
    (by intro e he; simp [New] at he) (by intro hne; simp [New] at hne)
  refine ⟨h1, ?_⟩
  intro hne
  have hi := h2 hne
  exact ⟨hi, by simp [Buffers.GetFormat, hi], by simp [Buffers.GetFormat, hi]⟩

/-- Witness of C19: after loading `a.mp3` (44100 Hz) and `b.mp3` (48000 Hz) both
stored buffers have the format of the cache, 44100 Hz. -/
theorem cache_buffers_share_format_witness :
    (cacheRun demoCodec demoCache [CacheOp.load "a.mp3", CacheOp.load "b.mp3"]).format =
      ⟨44100, 2, 2⟩ ∧
    (cacheRun demoCodec demoCache [CacheOp.load "a.mp3", CacheOp.load "b.mp3"]).buffers.length = 2 ∧
    ∀ e ∈ (cacheRun demoCodec demoCache [CacheOp.load "a.mp3", CacheOp.load "b.mp3"]).buffers,
      e.2.f = (cacheRun demoCodec demoCache [CacheOp.load "a.mp3", CacheOp.load "b.mp3"]).format :=
  ⟨by decide, by decide,
   (cache_buffers_share_format demoCodec (fun _ => .error (Error.other "no such file"))
      (some demoReader) [CacheOp.load "a.mp3", CacheOp.load "b.mp3"]).1⟩

end buffers


/-! ## Lemmas about the states the mixer can reach -/

namespace streamer

open beep Synchronized

variable {α : Type}

theorem isBuffer_Seek (s : StreamSeeker α) (p : Int)
    (h : ∃ bs : bufferStreamer α, s = bs.toStreamSeeker) :
    ∃ bs : bufferStreamer α, (s.Seek p).2 = bs.toStreamSeeker := by
  obtain ⟨bs, rfl⟩ := h
  obtain ⟨pos, hpos⟩ := IsBuffer_Seek bs.data bs.toStreamSeeker p ⟨bs.pos, rfl⟩
  exact ⟨⟨bs.data, pos⟩, hpos⟩

theorem isBuffer_Stream (s : StreamSeeker α) (k : Nat)
    (h : ∃ bs : bufferStreamer α, s = bs.toStreamSeeker) :
    ∃ bs : bufferStreamer α, (s.Stream k).2.2 = bs.toStreamSeeker := by
  obtain ⟨bs, rfl⟩ := h
  obtain ⟨pos, hpos⟩ := IsBuffer_Stream bs.data bs.toStreamSeeker k ⟨bs.pos, rfl⟩
  exact ⟨⟨bs.data, pos⟩, hpos⟩

theorem buffersInvariant_NewMixer (objs : Objects α) : buffersInvariant NewMixer objs :=
  ⟨by intro e he; simp [NewMixer] at he, le_refl _, le_refl _, rfl, fun _ => ⟨rfl, rfl⟩⟩

theorem buffersInvariant_Add (m : Synchronized) (objs : Objects α) (s : Nat) (id : String)
    (hs : ∃ bs : bufferStreamer α, objs s = bs.toStreamSeeker)
    (h : buffersInvariant m objs) : buffersInvariant (m.Add objs s id).2 objs := by
  obtain ⟨hbuf, hp0, hp, herr, hun⟩ := h
  obtain ⟨bs, hbs⟩ := hs
  have hlen : (objs s).Len = (bs.data.length : Int) := by rw [hbs]; rfl
  by_cases hid : m.hasId id = true
  · rw [Add_existing m objs s id hid]
    exact ⟨hbuf, hp0, hp, herr, hun⟩
  · have hid2 : m.hasId id = false := by simpa using hid
    cases hi : m.isInitialized
    · obtain ⟨he, hl0⟩ := hun hi
      rw [Add_first m objs s id hid2 hi]
      refine ⟨?_, hp0, ?_, herr, ?_⟩
      · intro e he2
        simp only [he, List.nil_append, List.mem_singleton] at he2
        subst he2
        exact ⟨bs, hbs, hlen.symm⟩
      · have : m.position = 0 := by omega
        show m.position ≤ (objs s).Len
        rw [this, hlen]
        omega
      · intro hf
        simp at hf
    · by_cases hl : m.length = (objs s).Len
      · rw [Add_matching m objs s id hid2 hi hl]
        refine ⟨?_, hp0, hp, herr, ?_⟩
        · intro e he2
          simp only [List.mem_append, List.mem_singleton] at he2
          rcases he2 with he2 | he2
          · exact hbuf e he2
          · subst he2
            exact ⟨bs, hbs, by rw [← hlen]; exact hl.symm⟩
        · intro hf
          simp [hi] at hf
      · rw [Add_mismatch m objs s id hid2 hi hl]
        exact ⟨hbuf, hp0, hp, herr, hun⟩

theorem buffersInvariant_Remove (m : Synchronized) (objs : Objects α) (id : String)
    (h : buffersInvariant m objs) : buffersInvariant (m.Remove id) objs := by
  obtain ⟨hbuf, hp0, hp, herr, hun⟩ := h
  refine ⟨?_, hp0, hp, herr, ?_⟩
  · intro e he
    exact hbuf e (List.mem_filter.mp he).1
  · intro hi
    obtain ⟨he, hl0⟩ := hun hi
    exact ⟨by simp [Synchronized.Remove, he], hl0⟩

theorem buffersInvariant_Seek (m : Synchronized) (objs : Objects α) (p : Int)
    (h : buffersInvariant m objs) : buffersInvariant (m.Seek p).2 objs := by
  obtain ⟨hbuf, hp0, hp, herr, hun⟩ := h
  by_cases hb : p < 0 ∨ p > m.length
  · have : m.Seek p = (some (Error.seekOutOfBounds p 0 m.length), m) := by
      simp [Synchronized.Seek, hb]
    rw [this]
    exact ⟨hbuf, hp0, hp, herr, hun⟩
  · have : m.Seek p = (none, { m with position := p }) := by
      simp [Synchronized.Seek, hb]
    rw [this]
    exact ⟨hbuf, by simp only; omega, by simp only; omega, herr, hun⟩

theorem buffersInvariant_Stream [Add α] [Zero α] (m : Synchronized) (objs : Objects α)
    (samples : List (Sample α)) (h : buffersInvariant m objs) :
    buffersInvariant (m.Stream objs samples).mixer (m.Stream objs samples).objects := by
  obtain ⟨hbuf, hp0, hp, herr, hun⟩ := h
  by_cases hge : m.position ≥ m.length
  · rw [Stream_of_drained m objs samples hge]
    exact ⟨hbuf, hp0, hp, herr, hun⟩
  · have hlt : m.position < m.length := by omega
    obtain ⟨h1, h2, h3, _, h5⟩ := Stream_buffers m objs samples hbuf hp0 hlt
    rw [h3]
    exact ⟨h5, by simp only; omega, by simp only; omega, herr, hun⟩

theorem buffersInvariant_step [Add α] [Zero α] (objs0 : Objects α)
    (st : Synchronized × Objects α) (op : MixerOp α) (hop : op.buffered objs0)
    (h : buffersInvariant st.1 st.2)
    (hkeep : ∀ a, (∃ bs : bufferStreamer α, objs0 a = bs.toStreamSeeker) →
      ∃ bs : bufferStreamer α, st.2 a = bs.toStreamSeeker) :
    buffersInvariant (mixerStep st op).1 (mixerStep st op).2 ∧
    (∀ a, (∃ bs : bufferStreamer α, objs0 a = bs.toStreamSeeker) →
      ∃ bs : bufferStreamer α, (mixerStep st op).2 a = bs.toStreamSeeker) := by
  cases op with
  | add s id => exact ⟨buffersInvariant_Add st.1 st.2 s id (hkeep s hop) h, hkeep⟩
  | remove id => exact ⟨buffersInvariant_Remove st.1 st.2 id h, hkeep⟩
  | seek p => exact ⟨buffersInvariant_Seek st.1 st.2 p h, hkeep⟩
  | stream samples =>
    refine ⟨buffersInvariant_Stream st.1 st.2 samples h, ?_⟩
    intro a ha
    exact Stream_preserves (fun _ s => ∃ bs : bufferStreamer α, s = bs.toStreamSeeker)
      (fun _ s p hs => isBuffer_Seek s p hs) (fun _ s k hs => isBuffer_Stream s k hs)
      st.1 st.2 samples a (hkeep a ha)

theorem buffersInvariant_run [Add α] [Zero α] (objs0 : Objects α) (ops : List (MixerOp α)) :
    ∀ st : Synchronized × Objects α, (∀ op ∈ ops, op.buffered objs0) →
      buffersInvariant st.1 st.2 →
      (∀ a, (∃ bs : bufferStreamer α, objs0 a = bs.toStreamSeeker) →
        ∃ bs : bufferStreamer α, st.2 a = bs.toStreamSeeker) →
      buffersInvariant (ops.foldl mixerStep st).1 (ops.foldl mixerStep st).2 := by
  induction ops with
  | nil => intro st _ h _; exact h
  | cons op ops ih =>
    intro st hops h hkeep
    obtain ⟨h1, h2⟩ := buffersInvariant_step objs0 st op (hops op (List.mem_cons_self _ _))
      h hkeep
    exact ih (mixerStep st op) (fun o ho => hops o (List.mem_cons_of_mem _ ho)) h1 h2

end streamer

/-! ## The claims about the states the mixer can reach -/

namespace streamer

open beep Synchronized

variable {α : Type}

/-- C17: in every mixer state reached from `NewMixer` by a sequence of `Add`,
`Remove`, `Seek` and `Stream` calls whose added participants are buffer-backed
seekers (one seeker may be added under several ids), `0 ≤ Position() ≤ Len()`. -/
theorem Position_within_bounds [Add α] [Zero α] (objs : Objects α) (ops : List (MixerOp α))
    (hops : ∀ op ∈ ops, op.buffered objs) :
    0 ≤ (mixerRun NewMixer objs ops).1.Position ∧
    (mixerRun NewMixer objs ops).1.Position ≤ (mixerRun NewMixer objs ops).1.Len := by
  obtain ⟨_, hp0, hp, _, _⟩ :=
    buffersInvariant_run objs ops (NewMixer, objs) hops (buffersInvariant_NewMixer objs)
      (fun _ h => h)
  exact ⟨hp0, hp⟩

/-- Witness of C17: add a track of length 20, seek to 15, stream 10 samples
(five are left), fail to seek to 21, remove the track, stream again: the
position is 20 and the length is 20. -/
theorem Position_within_bounds_witness :
    (mixerRun NewMixer demoObjects
      [MixerOp.add 0 "foo", MixerOp.seek 15,
       MixerOp.stream (List.replicate 10 (0, 0)), MixerOp.seek 21, MixerOp.remove "foo",
       MixerOp.stream (List.replicate 10 (0, 0))]).1.Position = 20 ∧
    0 ≤ (mixerRun NewMixer demoObjects
      [MixerOp.add 0 "foo", MixerOp.seek 15,
       MixerOp.stream (List.replicate 10 (0, 0)), MixerOp.seek 21, MixerOp.remove "foo",
       MixerOp.stream (List.replicate 10 (0, 0))]).1.Position ∧
    (mixerRun NewMixer demoObjects
      [MixerOp.add 0 "foo", MixerOp.seek 15,
       MixerOp.stream (List.replicate 10 (0, 0)), MixerOp.seek 21, MixerOp.remove "foo",
       MixerOp.stream (List.replicate 10 (0, 0))]).1.Position ≤
      (mixerRun NewMixer demoObjects
      [MixerOp.add 0 "foo", MixerOp.seek 15,
       MixerOp.stream (List.replicate 10 (0, 0)), MixerOp.seek 21, MixerOp.remove "foo",
       MixerOp.stream (List.replicate 10 (0, 0))]).1.Len :=
  ⟨by decide,
   Position_within_bounds demoObjects _ (by
    intro op hop
    simp only [List.mem_cons, List.mem_singleton, List.not_mem_nil, or_false] at hop
    rcases hop with h | h | h | h | h | h <;> subst h
    · exact ⟨⟨(track20.take 20).drop 0, 0⟩, rfl⟩
    all_goals trivial)⟩

/-- C20: `Err()` is nil on the mixer returned by `NewMixer`, and it is nil in
every state reached by a sequence of `Add`, `Remove`, `Seek` and `Stream` calls
whose added participants are buffer-backed seekers (one seeker may be added
under several ids); in such a state the `Seek` of every participant succeeds for
every position in `[0, Len()]`, so `getStreamers` at the cursor leaves `Err()`
nil. -/
theorem Err_stays_nil [Add α] [Zero α] (objs : Objects α) (ops : List (MixerOp α))
    (hops : ∀ op ∈ ops, op.buffered objs) :
    NewMixer.Err = none ∧
    (mixerRun NewMixer objs ops).1.Err = none ∧
    (∀ e ∈ (mixerRun NewMixer objs ops).1.streamers, ∀ p : Int,
      0 ≤ p → p ≤ (mixerRun NewMixer objs ops).1.Len →
      (((mixerRun NewMixer objs ops).2 e.2).Seek p).1 = none) ∧
    ((mixerRun NewMixer objs ops).1.getStreamers (mixerRun NewMixer objs ops).2
      (mixerRun NewMixer objs ops).1.Position).2.1.Err = none := by
  have hinv : buffersInvariant (mixerRun NewMixer objs ops).1 (mixerRun NewMixer objs ops).2 :=
    buffersInvariant_run objs ops (NewMixer, objs) hops (buffersInvariant_NewMixer objs)
      (fun _ h => h)
  obtain ⟨hbuf, hp0, hp, herr, _⟩ := hinv
  refine ⟨rfl, herr, ?_, ?_⟩
  · intro e he p h0 h1
    obtain ⟨bs, hbs, hl⟩ := hbuf e he
    rw [hbs]
    have := bufSeeker_Seek bs.data bs.pos p h0 (by
      simp only [Synchronized.Len] at h1; omega)
    exact congrArg Prod.fst this
  · show ((mixerRun NewMixer objs ops).1.getStreamers (mixerRun NewMixer objs ops).2
      (mixerRun NewMixer objs ops).1.position).2.1.err = none
    rw [(getStreamers_buffers _ _ hbuf hp0 hp).2.1]
    exact herr

/-- Witness of C20: one track of length 20 is added under two ids, the mixer
seeks to 15, streams past the end, seeks to 20 and streams again; `Err()` is
nil. -/
theorem Err_stays_nil_witness :
    (mixerRun NewMixer demoObjects
      [MixerOp.add 0 "foo", MixerOp.add 0 "bar", MixerOp.seek 15,
       MixerOp.stream (List.replicate 10 (0, 0)), MixerOp.seek 20,
       MixerOp.stream (List.replicate 10 (0, 0))]).1.Err = none :=
  (Err_stays_nil demoObjects _ (by
    intro op hop
    simp only [List.mem_cons, List.mem_singleton, List.not_mem_nil, or_false] at hop
    rcases hop with h | h | h | h | h | h <;> subst h
    · exact ⟨⟨(track20.take 20).drop 0, 0⟩, rfl⟩
    · exact ⟨⟨(track20.take 20).drop 0, 0⟩, rfl⟩
    all_goals trivial)).2.1

end streamer
